import Mathlib

/-!
Verification of the CalDAV synchronization engine of the Errands task
manager (src/errands/lib/sync/providers/caldav.py) against its design
specification.  The Python source is shallowly embedded: dataclasses become
structures, the iCalendar component of a remote to-do becomes a record of
optional properties, the data-access layer (errands/lib/data.py, whose
source is not part of the reviewed tree) is modelled from the spec, and the
stateful sync() routine becomes an explicit state-passing function that can
signal the Python runtime errors the source can raise.
-/

/-- Local task record, mirroring the TaskData dataclass
(errands/lib/data.py; the dataclass itself is outside the reviewed tree, so
the field set is the one the spec's data model lists plus the bookkeeping
fields caldav.py excludes by name).  Dataclass defaults are empty / zero /
false, matching the decoding rule that absent data is never null. -/
structure TaskData where
  uid : String := ""
  list_uid : String := ""
  text : String := ""
  notes : String := ""
  completed : Bool := false
  percent_complete : Nat := 0
  priority : Nat := 0
  color : String := ""
  tags : List String := []
  parent : String := ""
  start_date : String := ""
  due_date : String := ""
  created_at : String := ""
  changed_at : String := ""
  synced : Bool := false
  deleted : Bool := false
  trash : Bool := false
  expanded : Bool := false
  toolbar_shown : Bool := false
  notified : Bool := false
  deriving DecidableEq, Repr

/-- Local task-list record, mirroring the TaskListData dataclass. -/
structure TaskListData where
  uid : String := ""
  name : String := ""
  synced : Bool := false
  deleted : Bool := false
  deriving DecidableEq, Repr

/-- The icalendar component of a remote VTODO, as the properties that
__get_tasks / __update_remote_task / __create_remote_task read and write.
A `none` field is an absent property (`icalendar_component.get` returning
the default). String-valued date properties hold the iCal text that
`.to_ical().decode("utf-8")` would produce. -/
structure RemoteTodo where
  summary : Option String := none
  description : Option String := none
  related_to : Option String := none
  x_errands_color : Option String := none
  status : Option String := none
  percent_complete : Option Nat := none
  priority : Option Nat := none
  categories : Option (List String) := none
  due : Option String := none
  dtstart : Option String := none
  dtstamp : Option String := none
  last_modified : Option String := none
  uid : Option String := none
  deriving DecidableEq, Repr

/-- A remote calendar as the sync engine sees it: id, display name and its
to-dos.  Only VTODO-capable calendars enter `self.calendars`, so the
capability filter is applied before values of this type are formed. -/
structure CalDAVCalendar where
  id : String := ""
  name : String := ""
  todos : List RemoteTodo := []
  deriving DecidableEq, Repr

/-- The UpdateUIArgs dataclass of caldav.py: the per-run UI change set. -/
structure UpdateUIArgs where
  update_trash : Bool := false
  update_tags : Bool := false
  tasks_to_add : List TaskData := []
  tasks_to_update : List TaskData := []
  tasks_to_purge : List TaskData := []
  lists_to_add : List TaskListData := []
  lists_to_update_name : List String := []
  lists_to_purge_uids : List String := []
  deriving DecidableEq, Repr

/-- Membership of a character in a string (Python's `"T" in s`), written
over the character list so that it evaluates inside the kernel. -/
def containsChar (s : String) (c : Char) : Bool :=
  s.data.contains c

/-- Python's str.strip("Z"): remove every leading and trailing 'Z'. -/
def stripZ (s : String) : String :=
  String.mk (((s.data.dropWhile (fun c => c == 'Z')).reverse.dropWhile
    (fun c => c == 'Z')).reverse)

/-- Decoding of the DUE and DTSTART properties in __get_tasks: strip the
Zulu marker, then append a zero time-of-day when the value is non-empty and
has no time component. -/
def decodeDateT (p : Option String) : String :=
  match p with
  | none => ""
  | some s =>
      let d := stripZ s
      if d != "" && !(containsChar d 'T') then d ++ "T000000" else d

/-- Decoding of the DTSTAMP and LAST-MODIFIED properties in __get_tasks:
strip the Zulu marker only (the source applies no time normalization to
these two fields). -/
def decodeDatePlain (p : Option String) : String :=
  match p with
  | none => ""
  | some s => stripZ s

/-- The Remote Task Codec, decoding direction: the per-todo body of
SyncProviderCalDAV.__get_tasks, converting one remote to-do of the calendar
with id `listUid` into a TaskData record.  Fields the source does not
assign keep their dataclass defaults. -/
def decodeTodo (listUid : String) (t : RemoteTodo) : TaskData :=
  { color := t.x_errands_color.getD ""
    completed := (t.status.getD "") == "COMPLETED"
    notes := t.description.getD ""
    parent := t.related_to.getD ""
    percent_complete := t.percent_complete.getD 0
    priority := t.priority.getD 0
    text := t.summary.getD ""
    uid := t.uid.getD ""
    list_uid := listUid
    tags := t.categories.getD []
    due_date := decodeDateT t.due
    start_date := decodeDateT t.dtstart
    created_at := decodeDatePlain t.dtstamp
    changed_at := decodeDatePlain t.last_modified }

/-- The six reconciliation outcomes of the task loop in sync() (lines
305-319): five explicit branches plus the fall-through where no condition
matches. -/
inductive TaskAction where
  | updateLocal
  | updateRemote
  | createRemote
  | deleteLocal
  | deleteRemote
  | skip
  deriving DecidableEq, Repr

/-- The if/elif chain of the local-task loop in SyncProviderCalDAV.sync,
on the three booleans it branches on. -/
def classifyTask (inRemote synced deleted : Bool) : TaskAction :=
  if inRemote && synced then .updateLocal
  else if inRemote && !synced then .updateRemote
  else if !inRemote && !synced then .createRemote
  else if !inRemote && synced then .deleteLocal
  else if inRemote && deleted then .deleteRemote
  else .skip

/-- Row 1 of the spec's precedence table: Pull. -/
def specPull (inRemote synced _deleted : Bool) : Bool := inRemote && synced

/-- Row 2 of the spec's precedence table: Push. -/
def specPush (inRemote synced _deleted : Bool) : Bool := inRemote && !synced

/-- Row 3 of the spec's precedence table: Create-remote. -/
def specCreateRemote (inRemote synced _deleted : Bool) : Bool :=
  !inRemote && !synced

/-- Row 4 of the spec's precedence table: Delete-remote. -/
def specDeleteRemote (inRemote _synced deleted : Bool) : Bool :=
  inRemote && deleted

/-- Row 5 of the spec's precedence table: Delete-local. -/
def specDeleteLocal (inRemote synced _deleted : Bool) : Bool :=
  !inRemote && synced

/-- How many of the spec's five classification predicates a task with the
given three booleans satisfies. -/
def specMatchCount (inRemote synced deleted : Bool) : Nat :=
  (List.filter (fun p => p inRemote synced deleted)
    [specPull, specPush, specCreateRemote, specDeleteRemote,
      specDeleteLocal]).length

/-- caldav Todo.uncomplete, as the sync engine relies on it: the to-do
stops being in the COMPLETED status. -/
def uncompleteTodo (t : RemoteTodo) : RemoteTodo :=
  { t with status := some "NEEDS-ACTION" }

/-- caldav Todo.complete, as the sync engine relies on it: the to-do is
put in the COMPLETED status. -/
def completeTodo (t : RemoteTodo) : RemoteTodo :=
  { t with status := some "COMPLETED" }

/-- The Remote Task Codec, push-update direction: the property writes of
SyncProviderCalDAV.__update_remote_task applied to the fetched to-do:
uncomplete first, assign every property (popping the four date properties
when the local field is empty; the categories line is
`task.tags if task.tags else []`), save, then complete again when the local
task is completed. -/
def updateRemoteTodo (todo : RemoteTodo) (task : TaskData) : RemoteTodo :=
  let t1 := uncompleteTodo todo
  let t2 : RemoteTodo :=
    { t1 with
      summary := some task.text
      due := if task.due_date ≠ "" then some task.due_date else none
      dtstart := if task.start_date ≠ "" then some task.start_date else none
      dtstamp := if task.created_at ≠ "" then some task.created_at else none
      last_modified :=
        if task.changed_at ≠ "" then some task.changed_at else none
      percent_complete := some task.percent_complete
      description := some task.notes
      priority := some task.priority
      categories := some (if task.tags.isEmpty then [] else task.tags)
      related_to := some task.parent
      x_errands_color := some task.color }
  if task.completed then completeTodo t2 else t2

/-- Model of the datetime round trip on the create path
(datetime.datetime.fromisoformat followed by iCalendar serialization):
dashes and colons of the ISO text are dropped, yielding the compact iCal
form.  Only well-formed local date-times reach this point in the source. -/
def isoToIcal (s : String) : String :=
  String.mk (s.data.filter (fun c => ¬ (c == '-' ∨ c == ':')))

/-- The Remote Task Codec, create direction: the to-do that
SyncProviderCalDAV.__create_remote_task saves.  Arguments passed as None
(categories for an empty tag list, the two optional dates when empty) are
absent properties; DTSTAMP and LAST-MODIFIED are never passed; the new
to-do is completed afterwards when the local task is completed. -/
def createRemoteTodo (task : TaskData) : RemoteTodo :=
  let t : RemoteTodo :=
    { categories := if task.tags.isEmpty then none else some task.tags
      description := some task.notes
      dtstart :=
        if task.start_date ≠ "" then some (isoToIcal task.start_date)
        else none
      due :=
        if task.due_date ≠ "" then some (isoToIcal task.due_date) else none
      priority := some task.priority
      percent_complete := some task.percent_complete
      related_to := some task.parent
      summary := some task.text
      uid := some task.uid
      x_errands_color := some task.color }
  if task.completed then completeTodo t else t

/-- The field names of the TaskData dataclass, as `asdict(remote_task).keys()`
enumerates them in SyncProviderCalDAV.__update_local_task. -/
inductive TaskField where
  | uid | list_uid | text | notes | completed | percent_complete | priority
  | color | tags | parent | start_date | due_date | created_at | changed_at
  | synced | deleted | trash | expanded | toolbar_shown | notified
  deriving DecidableEq, Repr, Fintype

/-- The dataclass key string of a field. -/
def fieldName (f : TaskField) : String :=
  match f with
  | .uid => "uid"
  | .list_uid => "list_uid"
  | .text => "text"
  | .notes => "notes"
  | .completed => "completed"
  | .percent_complete => "percent_complete"
  | .priority => "priority"
  | .color => "color"
  | .tags => "tags"
  | .parent => "parent"
  | .start_date => "start_date"
  | .due_date => "due_date"
  | .created_at => "created_at"
  | .changed_at => "changed_at"
  | .synced => "synced"
  | .deleted => "deleted"
  | .trash => "trash"
  | .expanded => "expanded"
  | .toolbar_shown => "toolbar_shown"
  | .notified => "notified"

/-- All TaskData fields. -/
def allFields : List TaskField :=
  [.uid, .list_uid, .text, .notes, .completed, .percent_complete, .priority,
   .color, .tags, .parent, .start_date, .due_date, .created_at, .changed_at,
   .synced, .deleted, .trash, .expanded, .toolbar_shown, .notified]

/-- A field value, over the four value shapes TaskData fields take. -/
inductive FieldVal where
  | str (s : String)
  | flag (b : Bool)
  | num (n : Nat)
  | strs (l : List String)
  deriving DecidableEq, Repr

/-- Reading one field of a task record (`getattr(task, key)`). -/
def getField (t : TaskData) (f : TaskField) : FieldVal :=
  match f with
  | .uid => .str t.uid
  | .list_uid => .str t.list_uid
  | .text => .str t.text
  | .notes => .str t.notes
  | .completed => .flag t.completed
  | .percent_complete => .num t.percent_complete
  | .priority => .num t.priority
  | .color => .str t.color
  | .tags => .strs t.tags
  | .parent => .str t.parent
  | .start_date => .str t.start_date
  | .due_date => .str t.due_date
  | .created_at => .str t.created_at
  | .changed_at => .str t.changed_at
  | .synced => .flag t.synced
  | .deleted => .flag t.deleted
  | .trash => .flag t.trash
  | .expanded => .flag t.expanded
  | .toolbar_shown => .flag t.toolbar_shown
  | .notified => .flag t.notified

/-- Boolean test that one list is a prefix of another. -/
def isPrefixB (needle hay : List Char) : Bool :=
  match needle, hay with
  | [], _ => true
  | _ :: _, [] => false
  | a :: as, b :: bs => a == b && isPrefixB as bs

/-- Boolean test that one list occurs contiguously inside another. -/
def isInfixB (needle hay : List Char) : Bool :=
  match hay with
  | [] => isPrefixB needle []
  | _ :: t => isPrefixB needle hay || isInfixB needle t

/-- Python's substring containment `needle in hay`. -/
def containsSub (needle hay : String) : Bool :=
  isInfixB needle.data hay.data

/-- The exclusion test of __update_local_task, which is the Python
substring test `key not in "synced trash expanded toolbar_shown deleted
notified"` (here without the negation): true when the field is skipped by
the pull comparison. -/
def excludedField (f : TaskField) : Bool :=
  containsSub (fieldName f) "synced trash expanded toolbar_shown deleted notified"

/-- Condition under which __update_local_task collects a field into
updated_props: not excluded by the substring test, and the decoded remote
value differs from the local one. -/
def pullCond (remote localT : TaskData) (f : TaskField) : Bool :=
  !excludedField f && getField remote f != getField localT f

/-- The updated_props list collected by __update_local_task. -/
def diffFields (remote localT : TaskData) : List TaskField :=
  allFields.filter (pullCond remote localT)

/-- Writing one field of a task record with the corresponding field of
`src` (one (prop, value) pair of a UserData.update_props call). -/
def copyField (src dst : TaskData) (f : TaskField) : TaskData :=
  match f with
  | .uid => { dst with uid := src.uid }
  | .list_uid => { dst with list_uid := src.list_uid }
  | .text => { dst with text := src.text }
  | .notes => { dst with notes := src.notes }
  | .completed => { dst with completed := src.completed }
  | .percent_complete => { dst with percent_complete := src.percent_complete }
  | .priority => { dst with priority := src.priority }
  | .color => { dst with color := src.color }
  | .tags => { dst with tags := src.tags }
  | .parent => { dst with parent := src.parent }
  | .start_date => { dst with start_date := src.start_date }
  | .due_date => { dst with due_date := src.due_date }
  | .created_at => { dst with created_at := src.created_at }
  | .changed_at => { dst with changed_at := src.changed_at }
  | .synced => { dst with synced := src.synced }
  | .deleted => { dst with deleted := src.deleted }
  | .trash => { dst with trash := src.trash }
  | .expanded => { dst with expanded := src.expanded }
  | .toolbar_shown => { dst with toolbar_shown := src.toolbar_shown }
  | .notified => { dst with notified := src.notified }

/-- Modelled from the spec: UserData.update_props writing the listed
columns of one task record with values taken from `src` (the decoded
remote task), leaving every other column unchanged. -/
def applyPullFields (fields : List TaskField) (src dst : TaskData) : TaskData :=
  fields.foldl (fun d f => copyField src d f) dst

/-- The whole local sync state plus the remote server: local task lists,
local tasks (across all lists) and the server's VTODO calendars. -/
structure SyncState where
  lists : List TaskListData := []
  tasks : List TaskData := []
  calendars : List CalDAVCalendar := []
  deriving DecidableEq, Repr

/-- Modelled from the spec: UserData.update_list_prop for the synced
column, keyed by list uid. -/
def updateListSynced (lists : List TaskListData) (uid : String) (v : Bool) :
    List TaskListData :=
  lists.map (fun l => if l.uid == uid then { l with synced := v } else l)

/-- Modelled from the spec: UserData.update_list_props for the name and
synced columns, keyed by list uid. -/
def updateListNameSynced (lists : List TaskListData) (uid nm : String)
    (v : Bool) : List TaskListData :=
  lists.map (fun l => if l.uid == uid then { l with name := nm, synced := v }
    else l)

/-- Modelled from the spec: UserData.delete_list, removing the list record
with the given uid. -/
def deleteListByUid (lists : List TaskListData) (uid : String) :
    List TaskListData :=
  lists.filter (fun l => l.uid != uid)

/-- Remote calendar rename (cal.set_properties with a DisplayName). -/
def updateCalName (cals : List CalDAVCalendar) (id nm : String) :
    List CalDAVCalendar :=
  cals.map (fun c => if c.id == id then { c with name := nm } else c)

/-- Remote calendar deletion (cal.delete). -/
def deleteCalById (cals : List CalDAVCalendar) (id : String) :
    List CalDAVCalendar :=
  cals.filter (fun c => c.id != id)

/-- Rewriting the to-do list of the calendar with the given id. -/
def updateCalTodos (cals : List CalDAVCalendar) (id : String)
    (f : List RemoteTodo → List RemoteTodo) : List CalDAVCalendar :=
  cals.map (fun c => if c.id == id then { c with todos := f c.todos } else c)

/-- Modelled from the spec: rewriting one task record keyed by owning list
uid and task uid. -/
def replaceTask (tasks : List TaskData) (listUid uid : String)
    (f : TaskData → TaskData) : List TaskData :=
  tasks.map (fun t => if t.list_uid == listUid && t.uid == uid then f t
    else t)

/-- Modelled from the spec: UserData.delete_task keyed by owning list uid
and task uid. -/
def deleteTaskByUid (tasks : List TaskData) (listUid uid : String) :
    List TaskData :=
  tasks.filter (fun t => !(t.list_uid == listUid && t.uid == uid))

/-- calendar.todo_by_uid followed by mutation and save: the first to-do
with the given uid is rewritten. -/
def replaceFirstTodoByUid (todos : List RemoteTodo) (uid : String)
    (f : RemoteTodo → RemoteTodo) : List RemoteTodo :=
  match todos with
  | [] => []
  | t :: ts =>
      if t.uid.getD "" == uid then f t :: ts
      else t :: replaceFirstTodoByUid ts uid f

/-- calendar.todo_by_uid followed by todo.delete: the first to-do with the
given uid is removed. -/
def removeFirstTodoByUid (todos : List RemoteTodo) (uid : String) :
    List RemoteTodo :=
  match todos with
  | [] => []
  | t :: ts =>
      if t.uid.getD "" == uid then ts
      else t :: removeFirstTodoByUid ts uid

/-- The uids of soft-deleted tasks across all lists (the deleted_uids line
of sync()). -/
def deletedUidsOf (tasks : List TaskData) : List String :=
  (tasks.filter (·.deleted)).map (·.uid)

/-- SyncProviderCalDAV.__add_local_lists: every remote calendar whose id
has no local list is inserted locally with synced=true and the remote name,
and queued as a list to add.  The uid snapshot is taken once, before the
loop, as in the source. -/
def addLocalLists (s : SyncState) (ui : UpdateUIArgs) :
    SyncState × UpdateUIArgs :=
  let userListsUids := s.lists.map (·.uid)
  s.calendars.foldl
    (fun (acc : SyncState × UpdateUIArgs) cal =>
      if !(userListsUids.contains cal.id) then
        let newList : TaskListData :=
          { name := cal.name, uid := cal.id, synced := true }
        ({ acc.1 with lists := acc.1.lists ++ [newList] },
         { acc.2 with lists_to_add := acc.2.lists_to_add ++ [newList] })
      else acc)
    (s, ui)

/-- One iteration of the rename for-loop inside sync()'s list loop, for the
snapshot record `l` of one local list against one calendar object of the
probe snapshot: __rename_remote_list when the local copy is unsynced,
__rename_local_list when it is synced. -/
def renameLoopStep (l : TaskListData) (acc : SyncState × UpdateUIArgs)
    (cal : CalDAVCalendar) : SyncState × UpdateUIArgs :=
  if cal.id == l.uid && cal.name != l.name && !l.synced then
    ({ acc.1 with
        calendars := updateCalName acc.1.calendars cal.id l.name
        lists := updateListSynced acc.1.lists cal.id false }, acc.2)
  else if cal.id == l.uid && cal.name != l.name && l.synced then
    ({ acc.1 with
        lists := updateListNameSynced acc.1.lists cal.id cal.name true },
     { acc.2 with
        lists_to_update_name := acc.2.lists_to_update_name ++ [cal.id]
        update_trash := true })
  else acc

/-- The body of sync()'s list loop for one snapshot record `l`: the rename
loop over the calendar probe snapshot, then the delete-local /
delete-remote / create chain.  The delete-local branch passes the rename
loop's variable `cal` to __delete_local_list; when the probe snapshot is
empty that variable was never bound and Python raises UnboundLocalError,
modelled as the error case. -/
def listStep (mkCalOk : String → Bool) (cals0 : List CalDAVCalendar)
    (remoteUids : List String) (l : TaskListData) (s : SyncState)
    (ui : UpdateUIArgs) : Except String (SyncState × UpdateUIArgs) :=
  let s1ui1 := cals0.foldl (renameLoopStep l) (s, ui)
  let s1 := s1ui1.1
  let ui1 := s1ui1.2
  if !(remoteUids.contains l.uid) && l.synced && !l.deleted then
    if cals0.isEmpty then .error "UnboundLocalError: cal"
    else
      .ok ({ s1 with lists := deleteListByUid s1.lists l.uid },
        { ui1 with
            lists_to_purge_uids := ui1.lists_to_purge_uids ++ [l.uid]
            update_trash := true
            update_tags := true })
  else if remoteUids.contains l.uid && l.deleted && l.synced then
    match cals0.find? (fun c => c.id == l.uid) with
    | some c =>
        .ok ({ s1 with
                calendars := deleteCalById s1.calendars c.id
                lists := deleteListByUid s1.lists c.id }, ui1)
    | none => .ok (s1, ui1)
  else if !(remoteUids.contains l.uid) && !l.synced && !l.deleted then
    let s2 :=
      if mkCalOk l.uid then
        { s1 with calendars := s1.calendars ++ [{ id := l.uid, name := l.name }] }
      else s1
    .ok ({ s2 with lists := updateListSynced s2.lists l.uid true }, ui1)
  else .ok (s1, ui1)

/-- The List Reconciler: sync() lines 265-292.  Iterates the snapshot of
local lists taken after __add_local_lists, against the calendar probe
snapshot taken at entry; `mkCalOk` tells, per list uid, whether the remote
calendar creation of __create_local_list succeeds (its failure is logged
and swallowed in the source). -/
def listPhase (mkCalOk : String → Bool) (s : SyncState) (ui : UpdateUIArgs) :
    Except String (SyncState × UpdateUIArgs) :=
  s.lists.foldlM
    (fun (acc : SyncState × UpdateUIArgs) l =>
      listStep mkCalOk s.calendars (s.calendars.map (·.id)) l acc.1 acc.2)
    (s, ui)

/-- One branch of the task loop applied to the snapshot record `t`, in the
state reached so far.  The branch is picked by the source's if/elif chain
(classifyTask) on the remote-ids snapshot of this calendar step. -/
def applyTaskAction (calId : String) (remoteIds : List String)
    (t : TaskData) (acc : SyncState × UpdateUIArgs) :
    SyncState × UpdateUIArgs :=
  match classifyTask (remoteIds.contains t.uid) t.synced t.deleted with
  | .updateLocal =>
      match acc.1.calendars.find? (fun c => c.id == calId) with
      | none => acc
      | some cal =>
          match (cal.todos.map (decodeTodo calId)).find?
              (fun rt => rt.uid == t.uid) with
          | none => acc
          | some rt =>
              if diffFields rt t ≠ [] then
                ({ acc.1 with
                    tasks := replaceTask acc.1.tasks calId t.uid
                      (fun old => applyPullFields (diffFields rt t) rt old) },
                 { acc.2 with
                    tasks_to_update := acc.2.tasks_to_update ++ [t]
                    update_tags := true
                    update_trash := true })
              else acc
  | .updateRemote =>
      ({ acc.1 with
          calendars := updateCalTodos acc.1.calendars calId
            (fun ts => replaceFirstTodoByUid ts t.uid
              (fun todo => updateRemoteTodo todo t))
          tasks := replaceTask acc.1.tasks calId t.uid
            (fun old => { old with synced := true }) }, acc.2)
  | .createRemote =>
      ({ acc.1 with
          calendars := updateCalTodos acc.1.calendars calId
            (fun ts => ts ++ [createRemoteTodo t])
          tasks := replaceTask acc.1.tasks calId t.uid
            (fun old => { old with synced := true }) }, acc.2)
  | .deleteLocal =>
      ({ acc.1 with tasks := deleteTaskByUid acc.1.tasks calId t.uid },
       { acc.2 with
          tasks_to_purge := acc.2.tasks_to_purge ++ [t]
          update_trash := true
          update_tags := true })
  | .deleteRemote =>
      ({ acc.1 with
          calendars := updateCalTodos acc.1.calendars calId
            (fun ts => removeFirstTodoByUid ts t.uid) }, acc.2)
  | .skip => acc

/-- SyncProviderCalDAV.__create_local_task: the decoded remote task is
added to the local store as-is (UserData.add_task of its dict) and queued
as a task to add. -/
def pullCreateApply (acc : SyncState × UpdateUIArgs) (rt : TaskData) :
    SyncState × UpdateUIArgs :=
  ({ acc.1 with tasks := acc.1.tasks ++ [rt] },
   { acc.2 with tasks_to_add := acc.2.tasks_to_add ++ [rt] })

/-- The pull-create filter at the end of a calendar step: remote to-dos
whose uid is absent from this list's local uid snapshot and from the
deleted-uid snapshot of this step. -/
def pullCreateList (localIds deletedUids : List String)
    (remoteTasks : List TaskData) : List TaskData :=
  remoteTasks.filter
    (fun rt => !(localIds.contains rt.uid) && !(deletedUids.contains rt.uid))

/-- The Task Reconciler for one calendar: sync() lines 297-324.  Snapshots
of this list's local tasks, remote decoded tasks and the global deleted-uid
set are taken at step entry; the local-task loop then runs, followed by
the pull-create loop. -/
def taskStep (s : SyncState) (ui : UpdateUIArgs) (calId : String) :
    SyncState × UpdateUIArgs :=
  match s.calendars.find? (fun c => c.id == calId) with
  | none => (s, ui)
  | some cal =>
      let localTasks := s.tasks.filter (fun t => t.list_uid == calId)
      let localIds := localTasks.map (·.uid)
      let remoteTasks := cal.todos.map (decodeTodo calId)
      let remoteIds := remoteTasks.map (·.uid)
      let deletedUids := deletedUidsOf s.tasks
      let s1ui1 := localTasks.foldl
        (fun acc t => applyTaskAction calId remoteIds t acc) (s, ui)
      (pullCreateList localIds deletedUids remoteTasks).foldl
        pullCreateApply s1ui1

/-- The per-list Task Reconciler runs over the re-probed calendar set. -/
def taskPhase (s : SyncState) (ui : UpdateUIArgs) :
    SyncState × UpdateUIArgs :=
  (s.calendars.map (·.id)).foldl (fun acc cid => taskStep acc.1 acc.2 cid)
    (s, ui)

/-- SyncProviderCalDAV.sync() in full: both calendar probes succeed and
return the server's VTODO calendars, a fresh UpdateUIArgs is built, local
lists are copied from remote, the List Reconciler runs over the local list
snapshot, the calendar set is re-probed, and the Task Reconciler runs per
calendar.  Per-item remote writes succeed except that remote calendar
creation succeeds only for uids accepted by `mkCalOk`.  The error case is
the UnboundLocalError the source can raise in its delete-local-list
branch. -/
def syncRun (mkCalOk : String → Bool) (s : SyncState) :
    Except String (SyncState × UpdateUIArgs) :=
  match listPhase mkCalOk (addLocalLists s {}).1 (addLocalLists s {}).2 with
  | .error e => .error e
  | .ok (s2, ui2) => .ok (taskPhase s2 ui2)

/-- Two consecutive sync() runs with no interleaved local or remote
change; the result is the second run's final state and UiChangeSet. -/
def twoRuns (mkCalOk : String → Bool) (s : SyncState) :
    Except String (SyncState × UpdateUIArgs) :=
  match syncRun mkCalOk s with
  | .error e => .error e
  | .ok (s1, _) => syncRun mkCalOk s1

/-- The five whole-list actions of the List Reconciler. -/
inductive ListAction where
  | renameRemote (calId : String)
  | renameLocal (calId : String)
  | deleteLocalList (uid : String)
  | deleteRemoteList (uid : String)
  | createRemoteList (uid : String)
  deriving DecidableEq, Repr

/-- The rename action one iteration of the inner for-loop of sync()'s list
loop applies for a local list snapshot against one calendar, if any. -/
def renameChoice (l : TaskListData) (cal : CalDAVCalendar) :
    Option ListAction :=
  if cal.id == l.uid && cal.name != l.name && !l.synced then
    some (ListAction.renameRemote cal.id)
  else if cal.id == l.uid && cal.name != l.name && l.synced then
    some (ListAction.renameLocal cal.id)
  else none

/-- The rename actions the inner for-loop of sync()'s list loop applies to
one local list snapshot, in calendar order. -/
def renameActions (cals : List CalDAVCalendar) (l : TaskListData) :
    List ListAction :=
  cals.filterMap (renameChoice l)

/-- All list actions sync() applies to one local list snapshot in one run:
the rename loop's actions followed by the delete-local / delete-remote /
create chain (an if/elif chain, so it contributes at most one action). -/
def listActions (cals : List CalDAVCalendar) (l : TaskListData) :
    List ListAction :=
  let remoteUids := cals.map (·.id)
  let renames := renameActions cals l
  if !(remoteUids.contains l.uid) && l.synced && !l.deleted then
    renames ++ [ListAction.deleteLocalList l.uid]
  else if remoteUids.contains l.uid && l.deleted && l.synced then
    renames ++ [ListAction.deleteRemoteList l.uid]
  else if !(remoteUids.contains l.uid) && !l.synced && !l.deleted then
    renames ++ [ListAction.createRemoteList l.uid]
  else renames

/-- Observable outcome of SyncProviderCalDAV.__init__ together with
_check_credentials and _connect: whether sync is enabled, how many
connection attempts were made, which toasts reached the user and which
VTODO-capable calendars were discovered. -/
structure ProviderInit where
  canSync : Bool := false
  connectAttempts : Nat := 0
  toasts : List String := []
  calendars : Option (List CalDAVCalendar) := none
  deriving DecidableEq, Repr

/-- The missing-credentials toast text. -/
def missingCredentialsToast : String :=
  "Not all sync credentials provided. Please check settings."

/-- The connection-failure toast text. -/
def connectFailedToast (url : String) : String :=
  "Can't connect to CalDAV server at: " ++ url

/-- SyncProviderCalDAV.__init__: check credentials (reporting a toast and
stopping before any connection is made when one is empty, with the toast
suppressed in testing mode), then connect exactly once; on connection
failure report a toast unless testing.  `connectOk` abstracts the
principal request's outcome, `rawCals` the server's calendars with their
supported component sets, filtered to the VTODO-capable ones. -/
def initProvider (url username password : String) (testing connectOk : Bool)
    (rawCals : List (CalDAVCalendar × List String)) : ProviderInit :=
  if url == "" || username == "" || password == "" then
    { toasts := if testing then [] else [missingCredentialsToast] }
  else if connectOk then
    { canSync := true
      connectAttempts := 1
      calendars :=
        some ((rawCals.filter (fun p => p.2.contains "VTODO")).map (·.1)) }
  else
    { connectAttempts := 1
      toasts := if testing then [] else [connectFailedToast url] }

/-- C1 counterexample input: a local task whose uid is on remote, synced,
and soft-deleted. -/
def c1InRemote : Bool := true

/-- C1: FALSE as stated.  At (in_remote, synced, deleted) = (true, true,
true) the Pull and Delete-remote predicates of the precedence table both
hold (two of the five match, so they are not non-overlapping), and the
source's if/elif chain classifies the task as Pull, not Delete-remote. -/
theorem C1_counterexample :
    specPull true true true = true ∧
    specDeleteRemote true true true = true ∧
    specMatchCount true true true = 2 ∧
    classifyTask true true true = TaskAction.updateLocal ∧
    classifyTask true true true ≠ TaskAction.deleteRemote := by
  decide

/-- C1 amended: the Delete-remote predicate overlaps Pull and Push, while
the other four predicates partition the tasks; the chain classifies every
task by in_remote and synced alone, and the Delete-remote branch is dead:
no task is ever classified Delete-remote, a remote-present deleted task
being classified Pull or Push by its synced flag instead. -/
theorem C1_amended_classification (inRemote synced deleted : Bool) :
    classifyTask inRemote synced deleted =
      (if inRemote then
        (if synced then TaskAction.updateLocal else TaskAction.updateRemote)
       else
        (if synced then TaskAction.deleteLocal
         else TaskAction.createRemote)) ∧
    classifyTask inRemote synced deleted ≠ TaskAction.deleteRemote ∧
    (List.filter (fun p => p inRemote synced deleted)
      [specPull, specPush, specCreateRemote, specDeleteLocal]).length = 1 := by
  cases inRemote <;> cases synced <;> cases deleted <;> decide

/-- C2 counterexample calendar. -/
def c2cal : CalDAVCalendar := { id := "L1", name := "remote name" }

/-- C2 counterexample local list: on remote, synced, soft-deleted, with a
name differing from its remote calendar. -/
def c2list : TaskListData :=
  { uid := "L1", name := "local name", synced := true, deleted := true }

/-- C2: FALSE as stated.  A local list present remotely with synced=true,
deleted=true and a differing name receives two actions in one run: the
rename-local action and the delete-remote-list action. -/
theorem C2_counterexample :
    listActions [c2cal] c2list =
      [ListAction.renameLocal "L1", ListAction.deleteRemoteList "L1"] ∧
    2 ≤ (listActions [c2cal] c2list).length := by
  decide

/-- C3 counterexample to-do: date-only DUE and date-only DTSTAMP. -/
def c3todo : RemoteTodo :=
  { due := some "20240101", dtstamp := some "20240101" }

/-- C3: FALSE as stated.  A date-only DTSTAMP decodes to created_at
without any appended time-of-day (only DUE and DTSTART are normalized to
midnight). -/
theorem C3_counterexample :
    (decodeTodo "L" c3todo).due_date = "20240101T000000" ∧
    (decodeTodo "L" c3todo).created_at = "20240101" ∧
    containsChar "20240101" 'T' = false := by
  decide

/-- C3 amended: every absent property decodes to an empty or zero value;
date-only DUE and DTSTART values are normalized to midnight by appending a
zero time-of-day, while DTSTAMP and LAST-MODIFIED are only stripped of the
Zulu marker and keep a date-only shape. -/
theorem C3_amended_decoding (listUid : String) (t : RemoteTodo) :
    (t.summary = none → (decodeTodo listUid t).text = "") ∧
    (t.description = none → (decodeTodo listUid t).notes = "") ∧
    (t.related_to = none → (decodeTodo listUid t).parent = "") ∧
    (t.x_errands_color = none → (decodeTodo listUid t).color = "") ∧
    (t.status = none → (decodeTodo listUid t).completed = false) ∧
    (t.percent_complete = none →
      (decodeTodo listUid t).percent_complete = 0) ∧
    (t.priority = none → (decodeTodo listUid t).priority = 0) ∧
    (t.categories = none → (decodeTodo listUid t).tags = []) ∧
    (t.uid = none → (decodeTodo listUid t).uid = "") ∧
    (t.due = none → (decodeTodo listUid t).due_date = "") ∧
    (t.dtstart = none → (decodeTodo listUid t).start_date = "") ∧
    (t.dtstamp = none → (decodeTodo listUid t).created_at = "") ∧
    (t.last_modified = none → (decodeTodo listUid t).changed_at = "") ∧
    (∀ s, t.due = some s → stripZ s ≠ "" →
      containsChar (stripZ s) 'T' = false →
      (decodeTodo listUid t).due_date = stripZ s ++ "T000000") ∧
    (∀ s, t.dtstart = some s → stripZ s ≠ "" →
      containsChar (stripZ s) 'T' = false →
      (decodeTodo listUid t).start_date = stripZ s ++ "T000000") ∧
    (∀ s, t.dtstamp = some s →
      (decodeTodo listUid t).created_at = stripZ s) ∧
    (∀ s, t.last_modified = some s →
      (decodeTodo listUid t).changed_at = stripZ s) := by
  refine ⟨?_, ?_, ?_, ?_, ?_, ?_, ?_, ?_, ?_, ?_, ?_, ?_, ?_, ?_, ?_, ?_, ?_⟩
  all_goals
    first
    | (intro s hs hne hT;
       simp [decodeTodo, decodeDateT, hs, hne, hT])
    | (intro s hs; simp [decodeTodo, decodeDatePlain, hs])
    | (intro h; simp [decodeTodo, decodeDateT, decodeDatePlain, h])

/-- C3 amended witness input. -/
def c3wtodo : RemoteTodo :=
  { due := some "20240102", dtstamp := some "20240103Z" }

/-- C3 amended at a concrete input: the date-only DUE is normalized, the
DTSTAMP only loses its Zulu marker, and the absent DESCRIPTION decodes to
the empty string. -/
theorem C3_amended_witness :
    (decodeTodo "L" c3wtodo).due_date = stripZ "20240102" ++ "T000000" ∧
    (decodeTodo "L" c3wtodo).created_at = stripZ "20240103Z" ∧
    (decodeTodo "L" c3wtodo).notes = "" := by
  obtain ⟨h1, h2, h3, h4, h5, h6, h7, h8, h9, h10, h11, h12, h13, h14, h15,
    h16, h17⟩ := C3_amended_decoding "L" c3wtodo
  exact ⟨h14 "20240102" rfl (by decide) (by decide), h16 "20240103Z" rfl,
    h2 rfl⟩

/-- C4 counterexample task: an empty tag list. -/
def c4task : TaskData := { uid := "T", tags := [] }

/-- C4 counterexample remote to-do being updated. -/
def c4todo : RemoteTodo := { uid := some "T" }

/-- C4: FALSE as stated.  On the update path an empty tags list is written
as a present empty category list, not an absent one (only the create path
omits it). -/
theorem C4_counterexample :
    (updateRemoteTodo c4todo c4task).categories = some [] ∧
    (updateRemoteTodo c4todo c4task).categories ≠ none ∧
    (createRemoteTodo c4task).categories = none := by
  decide

/-- C4 amended: on the create path an empty tags list is encoded as an
absent category list while the update path writes a present (possibly
empty) category list; empty date fields clear or omit the corresponding
remote property on both paths (DTSTAMP and LAST-MODIFIED are never passed
by the create path at all); and completion lands consistently on both
paths — the update path clears completion first (status NEEDS-ACTION) and
re-applies it when the task is completed, so the pushed to-do decodes as
completed exactly when the task is. -/
theorem C4_amended_push_encoding (lid : String) (todo : RemoteTodo)
    (task : TaskData) :
    ((updateRemoteTodo todo task).categories =
      some (if task.tags.isEmpty then [] else task.tags)) ∧
    ((createRemoteTodo task).categories =
      if task.tags.isEmpty then none else some task.tags) ∧
    (task.due_date = "" → (updateRemoteTodo todo task).due = none) ∧
    (task.start_date = "" → (updateRemoteTodo todo task).dtstart = none) ∧
    (task.created_at = "" → (updateRemoteTodo todo task).dtstamp = none) ∧
    (task.changed_at = "" →
      (updateRemoteTodo todo task).last_modified = none) ∧
    (task.due_date = "" → (createRemoteTodo task).due = none) ∧
    (task.start_date = "" → (createRemoteTodo task).dtstart = none) ∧
    ((createRemoteTodo task).dtstamp = none) ∧
    ((createRemoteTodo task).last_modified = none) ∧
    ((updateRemoteTodo todo task).status =
      some (if task.completed then "COMPLETED" else "NEEDS-ACTION")) ∧
    ((decodeTodo lid (updateRemoteTodo todo task)).completed =
      task.completed) ∧
    ((decodeTodo lid (createRemoteTodo task)).completed = task.completed) := by
  cases hc : task.completed <;>
    refine ⟨?_, ?_, ?_, ?_, ?_, ?_, ?_, ?_, ?_, ?_, ?_, ?_, ?_⟩ <;>
    first
    | (intro h;
       simp [updateRemoteTodo, createRemoteTodo, completeTodo,
         uncompleteTodo, decodeTodo, hc, h])
    | simp [updateRemoteTodo, createRemoteTodo, completeTodo,
        uncompleteTodo, decodeTodo, hc]

/-- C4 amended witness input. -/
def c4wtask : TaskData :=
  { uid := "T", tags := ["a", "b"], completed := true, due_date := "",
    start_date := "20240101T000000" }

/-- C4 amended at a concrete input: nonempty tags are present on both
paths, the empty due date clears the DUE property, and the completed flag
round-trips. -/
theorem C4_amended_witness :
    (updateRemoteTodo c4todo c4wtask).categories = some ["a", "b"] ∧
    (updateRemoteTodo c4todo c4wtask).due = none ∧
    (decodeTodo "L" (createRemoteTodo c4wtask)).completed = true := by
  obtain ⟨h1, h2, h3, h4, h5, h6, h7, h8, h9, h10, h11, h12, h13⟩ :=
    C4_amended_push_encoding "L" c4todo c4wtask
  refine ⟨?_, h3 rfl, ?_⟩
  · rw [h1]; decide
  · rw [h13]; rfl

/-- C9: when any of server URL, username or secret is empty, a
missing-credentials condition is signaled: no connection attempt is made,
can_sync stays false, no calendars are discovered, and the toast is shown
exactly when not in testing mode; when all three are non-empty exactly one
connection attempt is made. -/
theorem C9_session_establishment (url username password : String)
    (testing connectOk : Bool)
    (rawCals : List (CalDAVCalendar × List String)) :
    ((url = "" ∨ username = "" ∨ password = "") →
      (initProvider url username password testing connectOk rawCals).canSync
          = false ∧
      (initProvider url username password testing connectOk
          rawCals).connectAttempts = 0 ∧
      (initProvider url username password testing connectOk
          rawCals).calendars = none ∧
      (initProvider url username password testing connectOk rawCals).toasts
          = (if testing then [] else [missingCredentialsToast])) ∧
    (url ≠ "" → username ≠ "" → password ≠ "" →
      (initProvider url username password testing connectOk
          rawCals).connectAttempts = 1) := by
  constructor
  · intro h
    have hcred : (url == "" || username == "" || password == "") = true := by
      rcases h with h | h | h <;> simp [h]
    simp [initProvider, hcred]
  · intro h1 h2 h3
    have hcred : (url == "" || username == "" || password == "") = false := by
      simp [h1, h2, h3]
    cases connectOk <;> simp [initProvider, hcred]

/-- C9 at concrete inputs: empty secret means no attempt and a toast in
non-testing mode; full credentials mean one attempt. -/
theorem C9_witness :
    (initProvider "u" "n" "" false true []).connectAttempts = 0 ∧
    (initProvider "u" "n" "" false true []).canSync = false ∧
    (initProvider "u" "n" "" false true []).toasts =
      [missingCredentialsToast] ∧
    (initProvider "u" "n" "p" false true []).connectAttempts = 1 := by
  obtain ⟨hmiss, hfull⟩ := C9_session_establishment "u" "n" "" false true []
  obtain ⟨h1, h2, h3, h4⟩ := hmiss (Or.inr (Or.inr rfl))
  refine ⟨h2, h1, ?_, ?_⟩
  · rw [h4]; decide
  · exact (C9_session_establishment "u" "n" "p" false true []).2
      (by decide) (by decide) (by decide)

/-- C10 failing input: an empty remote calendar set together with one
synced, not-deleted local list. -/
def c10state : SyncState :=
  { lists := [{ uid := "L1", name := "A", synced := true }] }

/-- C10: the code is wrong.  With an empty calendar probe the rename
loop's variable `cal` is never bound, and the delete-local-list branch —
reached because the list is synced, not deleted, and its uid is absent
from the (empty) remote id set — evaluates `cal` and raises
UnboundLocalError, aborting the run. -/
theorem C10_unbound_cal :
    c10state.calendars = [] ∧
    (∃ l ∈ c10state.lists, l.synced = true ∧ l.deleted = false ∧
      (c10state.calendars.map (·.id)).contains l.uid = false) ∧
    syncRun (fun _ => true) c10state = .error "UnboundLocalError: cal" := by
  refine ⟨rfl, ⟨{ uid := "L1", name := "A", synced := true }, ?_⟩, ?_⟩
  · exact ⟨by decide, rfl, rfl, by decide⟩
  · rfl

/-- A calendar whose id differs from the list's uid contributes no rename
action. -/
theorem renameChoice_eq_none_of_id_ne (l : TaskListData)
    (cal : CalDAVCalendar) (h : cal.id ≠ l.uid) :
    renameChoice l cal = none := by
  simp [renameChoice, h]

/-- A calendar whose name equals the list's name contributes no rename
action. -/
theorem renameChoice_eq_none_of_name_eq (l : TaskListData)
    (cal : CalDAVCalendar) (h : cal.name = l.name) :
    renameChoice l cal = none := by
  simp [renameChoice, h]

/-- A calendar contributing a rename action matches the list's uid and
differs from it in name. -/
theorem renameChoice_isSome_inv (l : TaskListData) (cal : CalDAVCalendar)
    (a : ListAction) (h : renameChoice l cal = some a) :
    cal.id = l.uid ∧ cal.name ≠ l.name := by
  unfold renameChoice at h
  split at h
  case isTrue h1 =>
    simp only [Bool.and_eq_true, beq_iff_eq, bne_iff_ne] at h1
    exact ⟨h1.1.1, h1.1.2⟩
  case isFalse h1 =>
    split at h
    case isTrue h2 =>
      simp only [Bool.and_eq_true, beq_iff_eq, bne_iff_ne] at h2
      exact ⟨h2.1.1, h2.1.2⟩
    case isFalse h2 => exact Option.noConfusion h

/-- When no calendar id matches the list's uid, the rename loop applies no
action. -/
theorem renameActions_eq_nil_of_absent (cals : List CalDAVCalendar)
    (l : TaskListData) (h : ∀ c ∈ cals, c.id ≠ l.uid) :
    renameActions cals l = [] := by
  rw [renameActions, List.filterMap_eq_nil_iff]
  exact fun c hc => renameChoice_eq_none_of_id_ne l c (h c hc)

/-- When every id-matching calendar already carries the list's name, the
rename loop applies no action. -/
theorem renameActions_eq_nil_of_names_eq (cals : List CalDAVCalendar)
    (l : TaskListData) (h : ∀ c ∈ cals, c.id = l.uid → c.name = l.name) :
    renameActions cals l = [] := by
  rw [renameActions, List.filterMap_eq_nil_iff]
  intro c hc
  by_cases hid : c.id = l.uid
  · exact renameChoice_eq_none_of_name_eq l c (h c hc hid)
  · exact renameChoice_eq_none_of_id_ne l c hid

/-- With pairwise distinct calendar ids, the rename loop applies at most
one action to one local list. -/
theorem renameActions_length_le_one (cals : List CalDAVCalendar)
    (l : TaskListData) (h : (cals.map (·.id)).Nodup) :
    (renameActions cals l).length ≤ 1 := by
  induction cals with
  | nil => simp [renameActions]
  | cons c cs ih =>
      rw [List.map_cons, List.nodup_cons] at h
      rw [renameActions, List.filterMap_cons]
      cases hc : renameChoice l c with
      | none => exact ih h.2
      | some a =>
          have hid : c.id = l.uid := (renameChoice_isSome_inv l c a hc).1
          have hnil : renameActions cs l = [] := by
            refine renameActions_eq_nil_of_absent cs l (fun c' hc' hne => ?_)
            refine h.1 ?_
            have hmem : c'.id ∈ cs.map (·.id) :=
              List.mem_map_of_mem (·.id) hc'
            rw [hid, ← hne]
            exact hmem
          rw [renameActions] at hnil
          simp [hnil]

/-- C2 amended: per run, at most one list action applies to each local
list, except in one overlap: a list present remotely with synced=true and
deleted=true whose name differs from its remote calendar receives both the
rename-local action and the delete-remote-list action.  Outside that
overlap (and with pairwise distinct remote calendar ids) the conditions
are mutually exclusive. -/
theorem C2_amended_exclusive (cals : List CalDAVCalendar)
    (l : TaskListData) (hnodup : (cals.map (·.id)).Nodup)
    (hnot : ¬ (l.synced = true ∧ l.deleted = true ∧
      ∃ c ∈ cals, c.id = l.uid ∧ c.name ≠ l.name)) :
    (listActions cals l).length ≤ 1 := by
  have hre := renameActions_length_le_one cals l hnodup
  simp only [listActions]
  by_cases hin : l.uid ∈ cals.map (·.id)
  · have hcontains : ((cals.map (·.id)).contains l.uid) = true := by
      simp [hin]
    rw [hcontains]
    by_cases hd : l.deleted = true
    · by_cases hs : l.synced = true
      · have hnames : ∀ c ∈ cals, c.id = l.uid → c.name = l.name := by
          intro c hc hcid
          by_contra hne
          exact hnot ⟨hs, hd, c, hc, hcid, hne⟩
        have hnil := renameActions_eq_nil_of_names_eq cals l hnames
        simp [hd, hs, hnil]
      · replace hs : l.synced = false := by simpa using hs
        simp [hd, hs, hre]
    · replace hd : l.deleted = false := by simpa using hd
      by_cases hs : l.synced = true
      · simp [hd, hs, hre]
      · replace hs : l.synced = false := by simpa using hs
        simp [hd, hs, hre]
  · have hcontains : ((cals.map (·.id)).contains l.uid) = false := by
      simp [hin]
    rw [hcontains]
    have hnil : renameActions cals l = [] := by
      refine renameActions_eq_nil_of_absent cals l (fun c hc hne => ?_)
      refine hin ?_
      have hmem : c.id ∈ cals.map (·.id) := List.mem_map_of_mem (·.id) hc
      rw [← hne]
      exact hmem
    by_cases hd : l.deleted = true
    · by_cases hs : l.synced = true
      · simp [hd, hs, hnil]
      · replace hs : l.synced = false := by simpa using hs
        simp [hd, hs, hnil]
    · replace hd : l.deleted = false := by simpa using hd
      by_cases hs : l.synced = true
      · simp [hd, hs, hnil]
      · replace hs : l.synced = false := by simpa using hs
        simp [hd, hs, hnil]

/-- C2 amended at a concrete input: a synced list matching its remote
calendar's name receives no action at all. -/
theorem C2_amended_witness :
    ((["x"] : List String).Nodup → True) ∧
    (listActions [{ id := "L1", name := "N" }]
      { uid := "L1", name := "N", synced := true }).length ≤ 1 := by
  constructor
  · intro _; trivial
  · exact C2_amended_exclusive [{ id := "L1", name := "N" }]
      { uid := "L1", name := "N", synced := true }
      (by decide) (by decide)

/-- Writing a field reads it back as the source record's value. -/
theorem getField_copyField_same (src dst : TaskData) (f : TaskField) :
    getField (copyField src dst f) f = getField src f := by
  cases f <;> rfl

/-- Writing a field leaves every other field unchanged. -/
theorem getField_copyField_ne (src dst : TaskData) (f g : TaskField)
    (h : g ≠ f) :
    getField (copyField src dst f) g = getField dst g := by
  cases f <;> cases g <;> first | rfl | exact absurd rfl h

/-- A column-set write copies exactly the listed columns from the source
record. -/
theorem getField_applyPullFields (fs : List TaskField) (src dst : TaskData)
    (g : TaskField) :
    getField (applyPullFields fs src dst) g =
      (if g ∈ fs then getField src g else getField dst g) := by
  induction fs generalizing dst with
  | nil => simp [applyPullFields]
  | cons f fs ih =>
      show getField (applyPullFields fs src (copyField src dst f)) g = _
      rw [ih]
      by_cases hg : g ∈ fs
      · simp [hg, List.mem_cons]
      · by_cases hgf : g = f
        · subst hgf
          simp [hg, getField_copyField_same]
        · simp [hg, hgf, getField_copyField_ne src dst f g hgf]

/-- Every field is enumerated by the dataclass key list. -/
theorem mem_allFields (f : TaskField) : f ∈ allFields := by
  cases f <;> decide

/-- Membership in the collected updated_props is exactly the source's
condition: not substring-excluded and differing between the decoded remote
task and the local record. -/
theorem mem_diffFields (remote localT : TaskData) (f : TaskField) :
    f ∈ diffFields remote localT ↔ pullCond remote localT f = true := by
  rw [diffFields, List.mem_filter]
  exact ⟨fun h => h.2, fun h => ⟨mem_allFields f, h⟩⟩

/-- C8: the pull comparison of __update_local_task writes exactly the
differing non-bookkeeping attributes.  When the decoded remote copy
differs from the local record in exactly one non-excluded attribute, the
written record takes that attribute's remote value and keeps every other
attribute, and the six bookkeeping fields (synced, trash, expanded,
toolbar_shown, deleted, notified) are never written by a pull. -/
theorem C8_partial_pull (remote localT : TaskData) (f0 : TaskField)
    (hb : excludedField f0 = false)
    (hdiff : getField remote f0 ≠ getField localT f0)
    (hothers : ∀ f, excludedField f = false → f ≠ f0 →
      getField remote f = getField localT f) :
    getField (applyPullFields (diffFields remote localT) remote localT) f0 =
      getField remote f0 ∧
    (∀ f, f ≠ f0 →
      getField (applyPullFields (diffFields remote localT) remote localT) f
        = getField localT f) ∧
    (∀ f, f ∈ ([.synced, .deleted, .trash, .expanded, .toolbar_shown,
        .notified] : List TaskField) →
      getField (applyPullFields (diffFields remote localT) remote localT) f
        = getField localT f) := by
  have hchar := getField_applyPullFields (diffFields remote localT) remote
    localT
  have hmem0 : f0 ∈ diffFields remote localT := by
    rw [mem_diffFields, pullCond, hb]
    simp [hdiff]
  have hnotmem : ∀ f, f ≠ f0 → f ∉ diffFields remote localT := by
    intro f hne hmem
    rw [mem_diffFields, pullCond] at hmem
    rcases hbf : excludedField f with _ | _
    · have := hothers f hbf hne
      rw [hbf] at hmem
      simp [this] at hmem
    · rw [hbf] at hmem
      simp at hmem
  refine ⟨?_, ?_, ?_⟩
  · rw [hchar f0]
    simp [hmem0]
  · intro f hne
    rw [hchar f]
    simp [hnotmem f hne]
  · intro f hf
    have hexcl : excludedField f = true := by
      fin_cases hf <;> decide
    have hne : f ≠ f0 := by
      intro he
      rw [he, hb] at hexcl
      exact Bool.false_ne_true hexcl
    rw [hchar f]
    simp [hnotmem f hne]

/-- C8 witness remote record: differs from the local record only in
priority (the synced flag differs too but is bookkeeping). -/
def c8remote : TaskData := { uid := "T1", list_uid := "L1", priority := 9 }

/-- C8 witness local record. -/
def c8local : TaskData :=
  { uid := "T1", list_uid := "L1", priority := 1, synced := true }

/-- C8 at a concrete input: a remote copy differing only in priority pulls
priority alone; notes and the synced flag stay local. -/
theorem C8_witness :
    getField (applyPullFields (diffFields c8remote c8local) c8remote
      c8local) .priority = getField c8remote .priority ∧
    getField (applyPullFields (diffFields c8remote c8local) c8remote
      c8local) .notes = getField c8local .notes ∧
    getField (applyPullFields (diffFields c8remote c8local) c8remote
      c8local) .synced = getField c8local .synced := by
  obtain ⟨h1, h2, h3⟩ := C8_partial_pull c8remote c8local .priority
    (by decide) (by decide) (by decide)
  exact ⟨h1, h2 .notes (by decide), h3 .synced (by decide)⟩

/-- No branch of the local-task loop queues a task to add. -/
theorem applyTaskAction_tasks_to_add (calId : String)
    (remoteIds : List String) (t : TaskData)
    (acc : SyncState × UpdateUIArgs) :
    ((applyTaskAction calId remoteIds t acc).2).tasks_to_add =
      acc.2.tasks_to_add := by
  rw [applyTaskAction]
  split <;> try rfl
  split <;> try rfl
  split <;> try rfl
  split <;> rfl

/-- The local-task loop as a whole queues no task to add. -/
theorem taskLoop_tasks_to_add (calId : String) (remoteIds : List String)
    (ts : List TaskData) (acc : SyncState × UpdateUIArgs) :
    ((ts.foldl (fun a t =>
      applyTaskAction calId remoteIds t a) acc).2).tasks_to_add =
      acc.2.tasks_to_add := by
  induction ts generalizing acc with
  | nil => rfl
  | cons t ts ih =>
      rw [List.foldl_cons, ih, applyTaskAction_tasks_to_add]

/-- The pull-create loop appends exactly its filtered input to the queue
of tasks to add. -/
theorem pullCreateFold_tasks_to_add (pc : List TaskData)
    (acc : SyncState × UpdateUIArgs) :
    ((pc.foldl pullCreateApply acc).2).tasks_to_add =
      acc.2.tasks_to_add ++ pc := by
  induction pc generalizing acc with
  | nil => simp
  | cons rt pc ih =>
      rw [List.foldl_cons, ih]
      simp [pullCreateApply]

/-- C6 counterexample state: task T of list A is tombstoned
(deleted=true, synced=true) and absent from calendar A, while a to-do with
uid T still exists in calendar B. -/
def c6s : SyncState :=
  { lists := [{ uid := "A", name := "A", synced := true },
              { uid := "B", name := "B", synced := true }],
    tasks := [{ uid := "T", list_uid := "A", synced := true,
                deleted := true }],
    calendars := [{ id := "A", name := "A" },
                  { id := "B", name := "B",
                    todos := [{ uid := some "T" }] }] }

/-- C6: FALSE as stated.  Uid T is in the global deleted-uid set when the
run starts, yet one sync() run instantiates a new local task with uid T:
calendar A's step purges the tombstone (delete-local, since the tombstone
is synced and absent from calendar A), and calendar B's step recomputes
the deleted-uid set — now empty — and pull-creates T into list B. -/
theorem C6_counterexample :
    deletedUidsOf c6s.tasks = ["T"] ∧
    (syncRun (fun _ => true) c6s).toOption.map
        (fun p => p.2.tasks_to_add.map (·.uid)) = some ["T"] ∧
    (syncRun (fun _ => true) c6s).toOption.map
        (fun p => p.1.tasks.map (fun t => (t.uid, t.list_uid, t.deleted)))
      = some [("T", "B", false)] := by
  refine ⟨rfl, ?_, ?_⟩ <;> rfl

/-- C6 amended: the suppression holds per calendar step against the
deleted-uid set recomputed at that step's start — every task the step
newly queues as a task to add is decoded from that calendar's to-dos and
its uid is absent both from the list's local uids and from the deleted-uid
set as of that step.  Because the set is recomputed after earlier
calendars' purges, a uid tombstoned at the start of the run can still be
re-created by a later calendar's step. -/
theorem C6_amended_step_suppression (s : SyncState) (ui : UpdateUIArgs)
    (calId : String) (t : TaskData)
    (hmem : t ∈ ((taskStep s ui calId).2).tasks_to_add)
    (hnew : t ∉ ui.tasks_to_add) :
    ((deletedUidsOf s.tasks).contains t.uid) = false ∧
    (((s.tasks.filter (fun x => x.list_uid == calId)).map (·.uid)).contains
      t.uid) = false ∧
    ∃ cal ∈ s.calendars, cal.id = calId ∧
      t ∈ cal.todos.map (decodeTodo calId) := by
  rw [taskStep] at hmem
  cases hfind : s.calendars.find? (fun c => c.id == calId) with
  | none =>
      rw [hfind] at hmem
      exact absurd hmem hnew
  | some cal =>
      rw [hfind] at hmem
      rw [pullCreateFold_tasks_to_add, taskLoop_tasks_to_add] at hmem
      rcases List.mem_append.mp hmem with hold | hpc
      · exact absurd hold hnew
      · rw [pullCreateList, List.mem_filter] at hpc
        rcases hpc with ⟨hrt, hcond⟩
        rw [Bool.and_eq_true] at hcond
        have hcalid : cal.id = calId := by
          have := List.find?_some hfind
          exact beq_iff_eq.mp this
        refine ⟨?_, ?_, cal, List.mem_of_find?_eq_some hfind, hcalid, hrt⟩
        · have := hcond.2
          simp only [Bool.not_eq_true'] at this
          exact this
        · have := hcond.1
          simp only [Bool.not_eq_true'] at this
          exact this

/-- C6 amended witness state: one remote to-do with a fresh uid. -/
def c6ws : SyncState :=
  { lists := [{ uid := "A", name := "A", synced := true }],
    calendars := [{ id := "A", name := "A",
                    todos := [{ uid := some "N" }] }] }

/-- The decoded form of the C6 witness to-do. -/
def c6wt : TaskData := decodeTodo "A" { uid := some "N" }

/-- C6 amended at a concrete input: the pull-created task comes from the
calendar's to-dos and its uid avoids both snapshots. -/
theorem C6_amended_witness :
    ((deletedUidsOf c6ws.tasks).contains c6wt.uid) = false ∧
    (((c6ws.tasks.filter (fun x => x.list_uid == "A")).map (·.uid)).contains
      c6wt.uid) = false ∧
    ∃ cal ∈ c6ws.calendars, cal.id = "A" ∧
      c6wt ∈ cal.todos.map (decodeTodo "A") := by
  refine C6_amended_step_suppression c6ws {} "A" c6wt ?_ ?_
  · show c6wt ∈ ((taskStep c6ws {} "A").2).tasks_to_add
    decide
  · decide

/-- A false Boolean equation negates the corresponding truth. -/
theorem bool_ne_true {b : Bool} (h : b = false) : ¬ (b = true) := by
  rw [h]
  exact Bool.false_ne_true

/-- With pairwise distinct uids, filtering on a member's uid yields exactly
that member. -/
theorem filter_uid_single (lists : List TaskListData) (l0 : TaskListData)
    (hmem : l0 ∈ lists) (hnd : (lists.map (·.uid)).Nodup) :
    lists.filter (fun x => x.uid == l0.uid) = [l0] := by
  induction lists with
  | nil => exact absurd hmem (List.not_mem_nil l0)
  | cons a ls ih =>
      rw [List.map_cons, List.nodup_cons] at hnd
      rcases List.mem_cons.mp hmem with heq | hmem'
      · have hhead : (a.uid == l0.uid) = true := by
          rw [← heq]
          exact beq_self_eq_true l0.uid
        have hnil : ls.filter (fun x => x.uid == l0.uid) = [] := by
          rw [List.filter_eq_nil_iff]
          intro x hx hbeq
          have hxeq : x.uid = l0.uid := beq_iff_eq.mp hbeq
          have hxin : x.uid ∈ ls.map (·.uid) :=
            List.mem_map_of_mem (·.uid) hx
          rw [hxeq, heq] at hxin
          exact hnd.1 hxin
        rw [List.filter_cons, if_pos hhead, hnil, ← heq]
      · have hne : (a.uid == l0.uid) = false := by
          rw [beq_eq_false_iff_ne]
          intro he
          have hin : l0.uid ∈ ls.map (·.uid) :=
            List.mem_map_of_mem (·.uid) hmem'
          rw [← he] at hin
          exact hnd.1 hin
        rw [List.filter_cons, if_neg (bool_ne_true hne), ih hmem' hnd.2]

/-- A keyed record rewrite touching only uid `v` leaves the records with a
different uid `u` untouched. -/
theorem filter_uid_map_keyed (g : TaskListData → TaskListData)
    (v u : String) (hg : ∀ x, (g x).uid = x.uid)
    (lists : List TaskListData) (hvu : v ≠ u) :
    (lists.map (fun l => if l.uid == v then g l else l)).filter
      (fun x => x.uid == u) = lists.filter (fun x => x.uid == u) := by
  induction lists with
  | nil => rfl
  | cons l ls ih =>
      have huid : (if l.uid == v then g l else l).uid = l.uid := by
        split
        · exact hg l
        · rfl
      rw [List.map_cons, List.filter_cons, List.filter_cons, huid]
      cases hl : (l.uid == u) with
      | true =>
          have hlv : (l.uid == v) = false := by
            rw [beq_eq_false_iff_ne]
            rw [beq_iff_eq] at hl
            rw [hl]
            exact fun he => hvu he.symm
          rw [if_pos rfl, if_pos rfl, if_neg (bool_ne_true hlv), ih]
      | false =>
          rw [if_neg Bool.false_ne_true, if_neg Bool.false_ne_true, ih]

/-- A keyed record rewrite on uid `u` maps exactly the records with uid
`u`. -/
theorem filter_uid_map_keyed_self (g : TaskListData → TaskListData)
    (u : String) (hg : ∀ x, (g x).uid = x.uid)
    (lists : List TaskListData) :
    (lists.map (fun l => if l.uid == u then g l else l)).filter
      (fun x => x.uid == u) =
    (lists.filter (fun x => x.uid == u)).map g := by
  induction lists with
  | nil => rfl
  | cons l ls ih =>
      have huid : (if l.uid == u then g l else l).uid = l.uid := by
        split
        · exact hg l
        · rfl
      rw [List.map_cons, List.filter_cons, List.filter_cons, huid]
      cases hl : (l.uid == u) with
      | true =>
          rw [if_pos rfl, if_pos rfl, if_pos rfl, List.map_cons, ih]
      | false =>
          rw [if_neg Bool.false_ne_true, if_neg Bool.false_ne_true]
          exact ih

/-- updateListSynced on a different uid preserves uid-`u` records. -/
theorem filterU_updateListSynced_ne (lists : List TaskListData)
    (v u : String) (b : Bool) (hvu : v ≠ u) :
    (updateListSynced lists v b).filter (fun x => x.uid == u) =
      lists.filter (fun x => x.uid == u) := by
  rw [updateListSynced]
  exact filter_uid_map_keyed (fun l => { l with synced := b }) v u
    (fun x => rfl) lists hvu

/-- updateListNameSynced on a different uid preserves uid-`u` records. -/
theorem filterU_updateListNameSynced_ne (lists : List TaskListData)
    (v nm u : String) (b : Bool) (hvu : v ≠ u) :
    (updateListNameSynced lists v nm b).filter (fun x => x.uid == u) =
      lists.filter (fun x => x.uid == u) := by
  rw [updateListNameSynced]
  exact filter_uid_map_keyed (fun l => { l with name := nm, synced := b })
    v u (fun x => rfl) lists hvu

/-- deleteListByUid on a different uid preserves uid-`u` records. -/
theorem filterU_deleteListByUid_ne (lists : List TaskListData)
    (v u : String) (hvu : v ≠ u) :
    (deleteListByUid lists v).filter (fun x => x.uid == u) =
      lists.filter (fun x => x.uid == u) := by
  rw [deleteListByUid, List.filter_filter]
  refine List.filter_congr (fun x _ => ?_)
  cases hx : (x.uid == u) with
  | true =>
      have : (x.uid != v) = true := by
        rw [bne_iff_ne, beq_iff_eq] at *
        rw [hx]
        exact fun he => hvu he.symm
      simp [this]
  | false => simp

/-- The lists __add_local_lists inserts for a given uid snapshot. -/
def addedFor (uids : List String) (cals : List CalDAVCalendar) :
    List TaskListData :=
  (cals.filter (fun c => !(uids.contains c.id))).map
    (fun c => ({ name := c.name, uid := c.id, synced := true } : TaskListData))

/-- The fold of __add_local_lists appends exactly the missing calendars as
new local lists, both to the store and to the UI queue. -/
theorem addLocalLists_fold (uids : List String)
    (cals : List CalDAVCalendar) (st : SyncState × UpdateUIArgs) :
    cals.foldl
      (fun (acc : SyncState × UpdateUIArgs) cal =>
        if !(uids.contains cal.id) then
          ({ acc.1 with lists := acc.1.lists ++
              [{ name := cal.name, uid := cal.id, synced := true }] },
           { acc.2 with lists_to_add := acc.2.lists_to_add ++
              [{ name := cal.name, uid := cal.id, synced := true }] })
        else acc) st =
    ({ st.1 with lists := st.1.lists ++ addedFor uids cals },
     { st.2 with lists_to_add := st.2.lists_to_add ++ addedFor uids cals }) := by
  induction cals generalizing st with
  | nil => simp [addedFor]
  | cons c cs ih =>
      rw [List.foldl_cons]
      cases hc : (uids.contains c.id) with
      | false =>
          have hnotin : c.id ∉ uids := by simpa using hc
          simp only [hc, Bool.not_false, if_true]
          rw [ih]
          simp [addedFor, List.filter_cons, hnotin, List.append_assoc]
      | true =>
          have hin : c.id ∈ uids := by simpa using hc
          simp only [hc, Bool.not_true, if_false]
          rw [ih]
          simp [addedFor, List.filter_cons, hin]

/-- __add_local_lists in closed form: it only appends the missing
calendars as new synced lists, to the store and to the UI queue. -/
theorem addLocalLists_eq (s : SyncState) (ui : UpdateUIArgs) :
    addLocalLists s ui =
    ({ s with lists :=
        s.lists ++ addedFor (s.lists.map (·.uid)) s.calendars },
     { ui with lists_to_add :=
        ui.lists_to_add ++ addedFor (s.lists.map (·.uid)) s.calendars }) := by
  rw [addLocalLists]
  exact addLocalLists_fold (s.lists.map (·.uid)) s.calendars (s, ui)

/-- Every list __add_local_lists inserts carries some calendar's id. -/
theorem addedFor_uid_mem (uids : List String)
    (cals : List CalDAVCalendar) (a : TaskListData)
    (ha : a ∈ addedFor uids cals) : ∃ c ∈ cals, a.uid = c.id := by
  rw [addedFor, List.mem_map] at ha
  obtain ⟨c, hc, rfl⟩ := ha
  exact ⟨c, (List.mem_filter.mp hc).1, rfl⟩

/-- Renaming a calendar's display name keeps the calendar id list. -/
theorem updateCalName_ids (cals : List CalDAVCalendar) (id nm : String) :
    (updateCalName cals id nm).map (·.id) = cals.map (·.id) := by
  rw [updateCalName, List.map_map]
  refine List.map_congr_left (fun c _ => ?_)
  simp only [Function.comp_apply]
  split <;> rfl

/-- Rewriting a calendar's to-dos keeps the calendar id list. -/
theorem updateCalTodos_ids (cals : List CalDAVCalendar) (id : String)
    (f : List RemoteTodo → List RemoteTodo) :
    (updateCalTodos cals id f).map (·.id) = cals.map (·.id) := by
  rw [updateCalTodos, List.map_map]
  refine List.map_congr_left (fun c _ => ?_)
  simp only [Function.comp_apply]
  split <;> rfl

/-- Deleting a calendar with a different id keeps membership of `u` in the
id list. -/
theorem mem_ids_deleteCalById (cals : List CalDAVCalendar) (v u : String)
    (hvu : v ≠ u) :
    (u ∈ (deleteCalById cals v).map (·.id)) ↔
      (u ∈ cals.map (·.id)) := by
  rw [deleteCalById]
  simp only [List.mem_map, List.mem_filter]
  constructor
  · rintro ⟨c, ⟨hc, _⟩, hcu⟩
    exact ⟨c, hc, hcu⟩
  · rintro ⟨c, hc, hcu⟩
    refine ⟨c, ⟨hc, ?_⟩, hcu⟩
    rw [bne_iff_ne, hcu]
    exact fun he => hvu he.symm

/-- One rename-loop iteration against a calendar whose id differs from `u`
preserves the uid-`u` list records, the calendar id list, and the tasks. -/
theorem renameLoopStep_preserve (l : TaskListData)
    (acc : SyncState × UpdateUIArgs) (cal : CalDAVCalendar) (u : String)
    (hc : cal.id ≠ u) :
    ((renameLoopStep l acc cal).1).lists.filter (fun x => x.uid == u) =
      acc.1.lists.filter (fun x => x.uid == u) ∧
    ((renameLoopStep l acc cal).1).calendars.map (·.id) =
      acc.1.calendars.map (·.id) ∧
    ((renameLoopStep l acc cal).1).tasks = acc.1.tasks := by
  rw [renameLoopStep]
  split
  · exact ⟨filterU_updateListSynced_ne acc.1.lists cal.id u false hc,
      updateCalName_ids acc.1.calendars cal.id l.name, rfl⟩
  · split
    · exact ⟨filterU_updateListNameSynced_ne acc.1.lists cal.id cal.name u
        true hc, rfl, rfl⟩
    · exact ⟨rfl, rfl, rfl⟩

/-- The rename loop over calendars whose ids all differ from `u` preserves
the uid-`u` list records, the calendar id list, and the tasks. -/
theorem renameFold_preserve (l : TaskListData)
    (cals : List CalDAVCalendar) (acc : SyncState × UpdateUIArgs)
    (u : String) (hcal : ∀ c ∈ cals, c.id ≠ u) :
    ((cals.foldl (renameLoopStep l) acc).1).lists.filter
        (fun x => x.uid == u) =
      acc.1.lists.filter (fun x => x.uid == u) ∧
    ((cals.foldl (renameLoopStep l) acc).1).calendars.map (·.id) =
      acc.1.calendars.map (·.id) ∧
    ((cals.foldl (renameLoopStep l) acc).1).tasks = acc.1.tasks := by
  induction cals generalizing acc with
  | nil => exact ⟨rfl, rfl, rfl⟩
  | cons c cs ih =>
      rw [List.foldl_cons]
      have hstep := renameLoopStep_preserve l acc c u
        (hcal c (List.mem_cons_self c cs))
      have hrest := ih (renameLoopStep l acc c)
        (fun c' hc' => hcal c' (List.mem_cons_of_mem c hc'))
      exact ⟨hrest.1.trans hstep.1, hrest.2.1.trans hstep.2.1,
        hrest.2.2.trans hstep.2.2⟩

/-- Bind of an error in the Except monad. -/
theorem exc_bind_error {α β : Type} (e : String)
    (k : α → Except String β) : ((Except.error e : Except String α) >>= k) =
    .error e := rfl

/-- Bind of a success in the Except monad. -/
theorem exc_bind_ok {α β : Type} (a : α) (k : α → Except String β) :
    ((Except.ok a : Except String α) >>= k) = k a := rfl

/-- A list-loop step for a list whose uid differs from `u`, over a
calendar snapshot whose ids all differ from `u`, preserves the uid-`u`
list records and the presence of `u` among the server calendar ids. -/
theorem listStep_preserve (mk : String → Bool)
    (cals0 : List CalDAVCalendar) (m : TaskListData) (s : SyncState)
    (ui : UpdateUIArgs) (s' : SyncState) (ui' : UpdateUIArgs) (u : String)
    (hm : m.uid ≠ u) (hcal : ∀ c ∈ cals0, c.id ≠ u)
    (hok : listStep mk cals0 (cals0.map (·.id)) m s ui = .ok (s', ui')) :
    s'.lists.filter (fun x => x.uid == u) =
      s.lists.filter (fun x => x.uid == u) ∧
    ((u ∈ s'.calendars.map (·.id)) ↔ (u ∈ s.calendars.map (·.id))) := by
  have hfold := renameFold_preserve m cals0 (s, ui) u hcal
  rw [listStep] at hok
  split at hok
  · split at hok
    · exact Except.noConfusion hok
    · injection hok with hpair
      injection hpair with heqS heqUI
      subst heqS
      refine ⟨?_, ?_⟩
      · show (deleteListByUid
            (cals0.foldl (renameLoopStep m) (s, ui)).1.lists m.uid).filter
            (fun x => x.uid == u) = s.lists.filter (fun x => x.uid == u)
        rw [filterU_deleteListByUid_ne _ m.uid u hm]
        exact hfold.1
      · show (u ∈ ((cals0.foldl (renameLoopStep m)
            (s, ui)).1.calendars).map (·.id)) ↔
            (u ∈ s.calendars.map (·.id))
        rw [hfold.2.1]
  · split at hok
    · cases hfind : List.find? (fun c => c.id == m.uid) cals0 with
      | some c =>
          simp only [hfind] at hok
          injection hok with hpair
          injection hpair with heqS heqUI
          subst heqS
          have hcid : c.id ≠ u := hcal c (List.mem_of_find?_eq_some hfind)
          refine ⟨?_, ?_⟩
          · show (deleteListByUid
                (cals0.foldl (renameLoopStep m) (s, ui)).1.lists
                c.id).filter (fun x => x.uid == u) =
                s.lists.filter (fun x => x.uid == u)
            rw [filterU_deleteListByUid_ne _ c.id u hcid]
            exact hfold.1
          · show (u ∈ (deleteCalById
                (cals0.foldl (renameLoopStep m) (s, ui)).1.calendars
                c.id).map (·.id)) ↔ (u ∈ s.calendars.map (·.id))
            rw [mem_ids_deleteCalById _ c.id u hcid, hfold.2.1]
      | none =>
          simp only [hfind] at hok
          injection hok with hpair
          injection hpair with heqS heqUI
          subst heqS
          exact ⟨hfold.1, by rw [hfold.2.1]⟩
    · split at hok
      · split at hok
        · injection hok with hpair
          injection hpair with heqS heqUI
          subst heqS
          refine ⟨?_, ?_⟩
          · show (updateListSynced
                (cals0.foldl (renameLoopStep m) (s, ui)).1.lists m.uid
                true).filter (fun x => x.uid == u) =
                s.lists.filter (fun x => x.uid == u)
            rw [filterU_updateListSynced_ne _ m.uid u true hm]
            exact hfold.1
          · show (u ∈ ((cals0.foldl (renameLoopStep m) (s, ui)).1.calendars
                ++ [({ id := m.uid, name := m.name } : CalDAVCalendar)]).map
                (·.id)) ↔ (u ∈ s.calendars.map (·.id))
            rw [List.map_append]
            simp only [List.mem_append, List.map_cons, List.map_nil,
              List.mem_cons, List.not_mem_nil, or_false]
            rw [hfold.2.1]
            constructor
            · rintro (h | h)
              · exact h
              · exact absurd h.symm hm
            · exact fun h => Or.inl h
        · injection hok with hpair
          injection hpair with heqS heqUI
          subst heqS
          refine ⟨?_, ?_⟩
          · show (updateListSynced
                (cals0.foldl (renameLoopStep m) (s, ui)).1.lists m.uid
                true).filter (fun x => x.uid == u) =
                s.lists.filter (fun x => x.uid == u)
            rw [filterU_updateListSynced_ne _ m.uid u true hm]
            exact hfold.1
          · show (u ∈ ((cals0.foldl (renameLoopStep m)
                (s, ui)).1.calendars).map (·.id)) ↔
                (u ∈ s.calendars.map (·.id))
            rw [hfold.2.1]
      · injection hok with hpair
        injection hpair with heqS heqUI
        subst heqS
        exact ⟨hfold.1, by rw [hfold.2.1]⟩

/-- Marking the uid-`u` lists synced rewrites exactly those records. -/
theorem filterU_updateListSynced_self (lists : List TaskListData)
    (u : String) :
    (updateListSynced lists u true).filter (fun x => x.uid == u) =
      (lists.filter (fun x => x.uid == u)).map
        (fun x => { x with synced := true }) := by
  rw [updateListSynced]
  exact filter_uid_map_keyed_self (fun l => { l with synced := true }) u
    (fun x => rfl) lists

/-- The list-loop step for an unsynced, undeleted local list absent from
the calendar snapshot takes the create branch: it succeeds, marks exactly
the uid-matching records synced, and, when the remote calendar creation
succeeds, a calendar with that uid exists afterwards. -/
theorem listStep_self (mk : String → Bool) (cals0 : List CalDAVCalendar)
    (l0 : TaskListData) (s : SyncState) (ui : UpdateUIArgs)
    (s' : SyncState) (ui' : UpdateUIArgs)
    (hucal : ∀ c ∈ cals0, c.id ≠ l0.uid)
    (hsy : l0.synced = false) (hdel : l0.deleted = false)
    (hok : listStep mk cals0 (cals0.map (·.id)) l0 s ui = .ok (s', ui')) :
    s'.lists.filter (fun x => x.uid == l0.uid) =
      (s.lists.filter (fun x => x.uid == l0.uid)).map
        (fun x => { x with synced := true }) ∧
    (mk l0.uid = true → l0.uid ∈ s'.calendars.map (·.id)) := by
  have hfold := renameFold_preserve l0 cals0 (s, ui) l0.uid hucal
  have hcont : ((cals0.map (·.id)).contains l0.uid) = false := by
    cases hb : ((cals0.map (·.id)).contains l0.uid) with
    | false => rfl
    | true =>
        exfalso
        have hmem : l0.uid ∈ cals0.map (·.id) := by simpa using hb
        obtain ⟨c, hc, hcid⟩ := List.mem_map.mp hmem
        exact hucal c hc hcid
  rw [listStep, hcont, hsy, hdel] at hok
  simp only [Bool.not_false, Bool.not_true, Bool.false_and, Bool.and_false,
    Bool.true_and, Bool.and_true, Bool.false_eq_true, if_false, if_true,
    ite_false, ite_true] at hok
  split at hok
  · injection hok with hpair
    injection hpair with heqS heqUI
    subst heqS
    constructor
    · show (updateListSynced
          (cals0.foldl (renameLoopStep l0) (s, ui)).1.lists l0.uid
          true).filter (fun x => x.uid == l0.uid) = _
      rw [filterU_updateListSynced_self, hfold.1]
    · intro _
      show l0.uid ∈ ((cals0.foldl (renameLoopStep l0) (s, ui)).1.calendars
        ++ [({ id := l0.uid, name := l0.name } : CalDAVCalendar)]).map
        (·.id)
      rw [List.map_append, List.mem_append]
      right
      simp
  · injection hok with hpair
    injection hpair with heqS heqUI
    subst heqS
    constructor
    · show (updateListSynced
          (cals0.foldl (renameLoopStep l0) (s, ui)).1.lists l0.uid
          true).filter (fun x => x.uid == l0.uid) = _
      rw [filterU_updateListSynced_self, hfold.1]
    · intro hmk
      next hmkfalse =>
        rw [hmk] at hmkfalse
        exact absurd rfl hmkfalse

/-- A run of list-loop steps over lists whose uids differ from `u`
preserves the uid-`u` records and the presence of `u` among calendar
ids. -/
theorem listFoldM_preserve (mk : String → Bool)
    (cals0 : List CalDAVCalendar) (u : String) (ms : List TaskListData)
    (hms : ∀ m ∈ ms, m.uid ≠ u) (hcal : ∀ c ∈ cals0, c.id ≠ u)
    (acc acc' : SyncState × UpdateUIArgs)
    (hok : ms.foldlM (fun (a : SyncState × UpdateUIArgs) m =>
      listStep mk cals0 (cals0.map (·.id)) m a.1 a.2) acc = .ok acc') :
    acc'.1.lists.filter (fun x => x.uid == u) =
      acc.1.lists.filter (fun x => x.uid == u) ∧
    ((u ∈ acc'.1.calendars.map (·.id)) ↔
      (u ∈ acc.1.calendars.map (·.id))) := by
  induction ms generalizing acc with
  | nil =>
      injection hok with heq
      subst heq
      exact ⟨rfl, Iff.rfl⟩
  | cons m ms ih =>
      rw [List.foldlM_cons] at hok
      cases hstep : listStep mk cals0 (cals0.map (·.id)) m acc.1 acc.2 with
      | error e =>
          rw [hstep, exc_bind_error] at hok
          exact Except.noConfusion hok
      | ok a =>
          rw [hstep, exc_bind_ok] at hok
          have hrest := ih (fun x hx => hms x (List.mem_cons_of_mem m hx))
            a hok
          have hstep' := listStep_preserve mk cals0 m acc.1 acc.2 a.1 a.2 u
            (hms m (List.mem_cons_self m ms)) hcal hstep
          exact ⟨hrest.1.trans hstep'.1, hrest.2.trans hstep'.2⟩

/-- The List Reconciler's effect on one unsynced, undeleted local list
absent from the remote calendar set, in a snapshot where no other list
shares its uid: its store records end up marked synced, and on successful
remote creation a calendar with its uid exists. -/
theorem listPhase_result (mk : String → Bool) (s : SyncState)
    (ui : UpdateUIArgs) (l0 : TaskListData)
    (pre post : List TaskListData) (hsplit : s.lists = pre ++ l0 :: post)
    (hucal : ∀ c ∈ s.calendars, c.id ≠ l0.uid)
    (hOnly : ∀ m, m ∈ pre ∨ m ∈ post → m.uid ≠ l0.uid)
    (hsy : l0.synced = false) (hdel : l0.deleted = false)
    (s' : SyncState) (ui' : UpdateUIArgs)
    (hok : listPhase mk s ui = .ok (s', ui')) :
    s'.lists.filter (fun x => x.uid == l0.uid) =
      (s.lists.filter (fun x => x.uid == l0.uid)).map
        (fun x => { x with synced := true }) ∧
    (mk l0.uid = true → l0.uid ∈ s'.calendars.map (·.id)) := by
  rw [listPhase, hsplit, List.foldlM_append] at hok
  cases h1 : pre.foldlM (fun (a : SyncState × UpdateUIArgs) m =>
      listStep mk s.calendars (s.calendars.map (·.id)) m a.1 a.2)
      (s, ui) with
  | error e =>
      rw [h1, exc_bind_error] at hok
      exact Except.noConfusion hok
  | ok acc1 =>
      rw [h1, exc_bind_ok, List.foldlM_cons] at hok
      have hpre := listFoldM_preserve mk s.calendars l0.uid pre
        (fun m hm => hOnly m (Or.inl hm)) hucal (s, ui) acc1 h1
      cases h2 : listStep mk s.calendars (s.calendars.map (·.id)) l0
          acc1.1 acc1.2 with
      | error e =>
          rw [h2, exc_bind_error] at hok
          exact Except.noConfusion hok
      | ok acc2 =>
          rw [h2, exc_bind_ok] at hok
          have hself := listStep_self mk s.calendars l0 acc1.1 acc1.2
            acc2.1 acc2.2 hucal hsy hdel h2
          have hpost := listFoldM_preserve mk s.calendars l0.uid post
            (fun m hm => hOnly m (Or.inr hm)) hucal acc2 (s', ui') hok
          constructor
          · rw [hpost.1, hself.1, hpre.1]
          · intro hmk
            exact hpost.2.mpr (hself.2 hmk)

/-- No branch of the local-task loop touches the list store. -/
theorem applyTaskAction_lists (calId : String) (remoteIds : List String)
    (t : TaskData) (acc : SyncState × UpdateUIArgs) :
    ((applyTaskAction calId remoteIds t acc).1).lists = acc.1.lists := by
  rw [applyTaskAction]
  split <;> try rfl
  split <;> try rfl
  split <;> try rfl
  split <;> rfl

/-- No branch of the local-task loop changes the calendar id list. -/
theorem applyTaskAction_calIds (calId : String) (remoteIds : List String)
    (t : TaskData) (acc : SyncState × UpdateUIArgs) :
    ((applyTaskAction calId remoteIds t acc).1).calendars.map (·.id) =
      acc.1.calendars.map (·.id) := by
  rw [applyTaskAction]
  split
  · split
    · rfl
    · split
      · rfl
      · split
        · rfl
        · rfl
  · show (updateCalTodos acc.1.calendars calId (fun ts =>
        replaceFirstTodoByUid ts t.uid (fun todo =>
          updateRemoteTodo todo t))).map (·.id) =
        acc.1.calendars.map (·.id)
    exact updateCalTodos_ids _ _ _
  · show (updateCalTodos acc.1.calendars calId (fun ts =>
        ts ++ [createRemoteTodo t])).map (·.id) =
        acc.1.calendars.map (·.id)
    exact updateCalTodos_ids _ _ _
  · rfl
  · show (updateCalTodos acc.1.calendars calId (fun ts =>
        removeFirstTodoByUid ts t.uid)).map (·.id) =
        acc.1.calendars.map (·.id)
    exact updateCalTodos_ids _ _ _
  · rfl

/-- One calendar step of the Task Reconciler does not touch the list
store and keeps the calendar id list. -/
theorem taskStep_preserve (s : SyncState) (ui : UpdateUIArgs)
    (calId : String) :
    ((taskStep s ui calId).1).lists = s.lists ∧
    ((taskStep s ui calId).1).calendars.map (·.id) =
      s.calendars.map (·.id) := by
  have hloop : ∀ (ts : List TaskData) (remoteIds : List String)
      (acc : SyncState × UpdateUIArgs),
      ((ts.foldl (fun a t => applyTaskAction calId remoteIds t a)
        acc).1).lists = acc.1.lists ∧
      ((ts.foldl (fun a t => applyTaskAction calId remoteIds t a)
        acc).1).calendars.map (·.id) = acc.1.calendars.map (·.id) := by
    intro ts remoteIds
    induction ts with
    | nil => exact fun acc => ⟨rfl, rfl⟩
    | cons t ts ih =>
        intro acc
        rw [List.foldl_cons]
        have hrest := ih (applyTaskAction calId remoteIds t acc)
        exact ⟨hrest.1.trans (applyTaskAction_lists calId remoteIds t acc),
          hrest.2.trans (applyTaskAction_calIds calId remoteIds t acc)⟩
  have hpc : ∀ (pc : List TaskData) (acc : SyncState × UpdateUIArgs),
      ((pc.foldl pullCreateApply acc).1).lists = acc.1.lists ∧
      ((pc.foldl pullCreateApply acc).1).calendars.map (·.id) =
        acc.1.calendars.map (·.id) := by
    intro pc
    induction pc with
    | nil => exact fun acc => ⟨rfl, rfl⟩
    | cons rt pc ih =>
        intro acc
        rw [List.foldl_cons]
        have hrest := ih (pullCreateApply acc rt)
        exact ⟨hrest.1, hrest.2⟩
  rw [taskStep]
  split
  · exact ⟨rfl, rfl⟩
  · refine ⟨?_, ?_⟩
    · exact (hpc _ _).1.trans (hloop _ _ _).1
    · exact (hpc _ _).2.trans (hloop _ _ _).2

/-- The Task Reconciler as a whole does not touch the list store and keeps
the calendar id list. -/
theorem taskPhase_preserve (s : SyncState) (ui : UpdateUIArgs) :
    ((taskPhase s ui).1).lists = s.lists ∧
    ((taskPhase s ui).1).calendars.map (·.id) = s.calendars.map (·.id) := by
  have hfold : ∀ (cids : List String) (acc : SyncState × UpdateUIArgs),
      ((cids.foldl (fun a cid => taskStep a.1 a.2 cid) acc).1).lists =
        acc.1.lists ∧
      ((cids.foldl (fun a cid => taskStep a.1 a.2 cid)
        acc).1).calendars.map (·.id) = acc.1.calendars.map (·.id) := by
    intro cids
    induction cids with
    | nil => exact fun acc => ⟨rfl, rfl⟩
    | cons cid cids ih =>
        intro acc
        rw [List.foldl_cons]
        have hrest := ih (taskStep acc.1 acc.2 cid)
        have hstep := taskStep_preserve acc.1 acc.2 cid
        exact ⟨hrest.1.trans hstep.1, hrest.2.trans hstep.2⟩
  exact hfold (s.calendars.map (·.id)) (s, ui)

/-- Inversion of a successful sync run into its three phases. -/
theorem syncRun_ok_inv (mk : String → Bool) (s : SyncState)
    (s' : SyncState) (ui' : UpdateUIArgs)
    (h : syncRun mk s = .ok (s', ui')) :
    ∃ s2 ui2,
      listPhase mk (addLocalLists s {}).1 (addLocalLists s {}).2 =
        .ok (s2, ui2) ∧
      (taskPhase s2 ui2).1 = s' ∧ (taskPhase s2 ui2).2 = ui' := by
  rw [syncRun] at h
  cases hlp : listPhase mk (addLocalLists s {}).1 (addLocalLists s {}).2 with
  | error e =>
      rw [hlp] at h
      exact Except.noConfusion h
  | ok p =>
      obtain ⟨s2, ui2⟩ := p
      rw [hlp] at h
      have h2 : Except.ok (taskPhase s2 ui2) =
        (Except.ok (s', ui') : Except String (SyncState × UpdateUIArgs)) := h
      injection h2 with hpair
      refine ⟨s2, ui2, rfl, ?_, ?_⟩
      · exact congrArg Prod.fst hpair
      · exact congrArg Prod.snd hpair

/-- Filtering on the uid of the distinguished element of a split list
yields exactly that element. -/
theorem filter_split_single (pre post : List TaskListData)
    (l0 : TaskListData)
    (hOnly : ∀ m, m ∈ pre ∨ m ∈ post → m.uid ≠ l0.uid) :
    (pre ++ l0 :: post).filter (fun x => x.uid == l0.uid) = [l0] := by
  rw [List.filter_append, List.filter_cons]
  have hpre : pre.filter (fun x => x.uid == l0.uid) = [] := by
    rw [List.filter_eq_nil_iff]
    intro m hm hbeq
    exact hOnly m (Or.inl hm) (beq_iff_eq.mp hbeq)
  have hpost : post.filter (fun x => x.uid == l0.uid) = [] := by
    rw [List.filter_eq_nil_iff]
    intro m hm hbeq
    exact hOnly m (Or.inr hm) (beq_iff_eq.mp hbeq)
  rw [hpre, hpost, if_pos (beq_self_eq_true l0.uid)]
  rfl

/-- C5: for every local list with synced=false, deleted=false, and no
remote calendar carrying its uid (with list uids pairwise distinct), one
successful sync() run leaves the list's store record with synced=true —
regardless of whether the remote calendar creation succeeded — and, when
the creation succeeded, a remote calendar with that uid exists. -/
theorem C5_create_list_marks_synced (mk : String → Bool) (s : SyncState)
    (l0 : TaskListData) (hmem : l0 ∈ s.lists)
    (hndL : (s.lists.map (·.uid)).Nodup)
    (hns : l0.synced = false) (hnd : l0.deleted = false)
    (hnr : ∀ c ∈ s.calendars, c.id ≠ l0.uid)
    (s' : SyncState) (ui' : UpdateUIArgs)
    (hrun : syncRun mk s = .ok (s', ui')) :
    s'.lists.filter (fun x => x.uid == l0.uid) =
      [{ l0 with synced := true }] ∧
    (mk l0.uid = true → l0.uid ∈ s'.calendars.map (·.id)) := by
  obtain ⟨s2, ui2, hlp, hs', hui'⟩ := syncRun_ok_inv mk s s' ui' hrun
  rw [addLocalLists_eq s {}] at hlp
  obtain ⟨pre0, post0, hsplit0⟩ := List.append_of_mem hmem
  have hOnly : ∀ m, m ∈ pre0 ∨
      m ∈ post0 ++ addedFor (s.lists.map (·.uid)) s.calendars →
      m.uid ≠ l0.uid := by
    intro m hm
    have hnd' : ((pre0 ++ l0 :: post0).map (·.uid)).Nodup := by
      rw [← hsplit0]
      exact hndL
    rw [List.map_append, List.nodup_append] at hnd'
    rcases hm with hmpre | hmrest
    · intro he
      refine hnd'.2.2 (List.mem_map_of_mem (·.uid) hmpre) ?_
      rw [he]
      exact List.mem_cons_self l0.uid _
    · rcases List.mem_append.mp hmrest with hmpost | hmadd
      · intro he
        have hh := hnd'.2.1
        rw [List.map_cons, List.nodup_cons] at hh
        refine hh.1 ?_
        rw [← he]
        exact List.mem_map_of_mem (·.uid) hmpost
      · obtain ⟨c, hc, hcid⟩ := addedFor_uid_mem _ _ m hmadd
        rw [hcid]
        exact hnr c hc
  have hsplitA : ({ s with lists := (s.lists ++
      addedFor (s.lists.map (·.uid)) s.calendars) } :
      SyncState).lists =
      pre0 ++ l0 :: (post0 ++ addedFor (s.lists.map (·.uid)) s.calendars) := by
    show s.lists ++ addedFor (s.lists.map (·.uid)) s.calendars = _
    rw [hsplit0, List.append_assoc, List.cons_append]
  have hres := listPhase_result mk
    { s with lists := s.lists ++ addedFor (s.lists.map (·.uid)) s.calendars }
    ({ lists_to_add := addedFor (s.lists.map (·.uid)) s.calendars } :
      UpdateUIArgs)
    l0 pre0 (post0 ++ addedFor (s.lists.map (·.uid)) s.calendars) hsplitA
    hnr hOnly hns hnd s2 ui2 hlp
  have hfilterA : ({ s with lists := (s.lists ++
      addedFor (s.lists.map (·.uid)) s.calendars) } :
      SyncState).lists.filter (fun x => x.uid == l0.uid) = [l0] := by
    rw [hsplitA]
    exact filter_split_single _ _ l0 hOnly
  have htp := taskPhase_preserve s2 ui2
  constructor
  · rw [← hs', htp.1, hres.1, hfilterA]
    rfl
  · intro hmk
    rw [← hs', htp.2]
    exact hres.2 hmk

/-- C5 witness initial state: one unsynced local list and one unrelated
remote calendar. -/
def c5s : SyncState :=
  { lists := [{ uid := "L1", name := "A" }],
    calendars := [{ id := "X", name := "X" }] }

/-- C5 witness final state of the run whose remote creation fails. -/
def c5final : SyncState :=
  { lists := [{ uid := "L1", name := "A", synced := true },
              { uid := "X", name := "X", synced := true }],
    calendars := [{ id := "X", name := "X" }] }

/-- C5 witness UiChangeSet of that run. -/
def c5ui : UpdateUIArgs :=
  { lists_to_add := [{ uid := "X", name := "X", synced := true }] }

/-- C5 at a concrete input: even though the remote calendar creation
fails, the run completes and the list record is marked synced. -/
theorem C5_witness :
    ({ uid := "L1", name := "A" } : TaskListData) ∈ c5s.lists ∧
    syncRun (fun _ => false) c5s = .ok (c5final, c5ui) ∧
    c5final.lists.filter (fun x => x.uid == "L1") =
      [{ uid := "L1", name := "A", synced := true }] := by
  refine ⟨by decide, by rfl, ?_⟩
  have h := C5_create_list_marks_synced (fun _ => false) c5s
    { uid := "L1", name := "A" } (by decide) (by decide) rfl rfl
    (by decide) c5final c5ui (by rfl)
  exact h.1

/-- C7 counterexample state: one synced, name-consistent list and one
unsynced task with a non-empty created_at, absent from remote. -/
def c7s : SyncState :=
  { lists := [{ uid := "L", name := "L", synced := true }],
    tasks := [{ uid := "T", list_uid := "L", text := "hello",
                created_at := "20240101T000000" }],
    calendars := [{ id := "L", name := "L" }] }

/-- C7: FALSE as stated.  The first run completes (create-remote pushes
the task without its DTSTAMP and even yields an empty UiChangeSet), no
local or remote change happens in between, yet the second run's
UiChangeSet is non-empty: the pull comparison sees the remote created_at
decode as empty, differing from the local value, and queues an update with
both dirty flags. -/
theorem C7_counterexample :
    (syncRun (fun _ => true) c7s).toOption.map
        (fun p => p.2 == ({} : UpdateUIArgs)) = some true ∧
    (twoRuns (fun _ => true) c7s).toOption.map
        (fun p => (p.2.tasks_to_update.map (·.uid), p.2.update_tags,
          p.2.update_trash, p.2 == ({} : UpdateUIArgs))) =
      some (["T"], true, true, false) := by
  exact ⟨rfl, rfl⟩

/-- Decoding preserves the to-do's uid text. -/
theorem decodeTodo_uid (cid : String) (td : RemoteTodo) :
    (decodeTodo cid td).uid = td.uid.getD "" := rfl

/-- The push-update encoding never touches the UID property. -/
theorem updateRemoteTodo_uid (td : RemoteTodo) (t : TaskData) :
    (updateRemoteTodo td t).uid = td.uid := by
  rw [updateRemoteTodo]
  split <;> rfl

/-- The pull comparison for one synced task against a calendar's to-dos is
clean: the first decoded to-do with the task's uid exists and differs in
no collected attribute. -/
def pullClean (cid : String) (todos : List RemoteTodo) (t : TaskData) :
    Bool :=
  match (todos.map (decodeTodo cid)).find? (fun x => x.uid == t.uid) with
  | some rt => diffFields rt t == []
  | none => false

/-- A converged synchronization state: every remote calendar has its local
list, matched synced lists agree on names, undeleted local lists exist
remotely, calendar ids and task uids and per-calendar to-do uids are
pairwise distinct, every synced task decodes cleanly from its calendar,
every unsynced task of a calendar already exists there, and every remote
to-do is either present locally in its list or tombstoned. -/
def Quiet (s : SyncState) : Prop :=
  ((s.calendars.map (·.id)).Nodup) ∧
  ((s.tasks.map (·.uid)).Nodup) ∧
  (∀ cal ∈ s.calendars, cal.id ∈ s.lists.map (·.uid)) ∧
  (∀ l ∈ s.lists, ∀ cal ∈ s.calendars,
      ¬(cal.id = l.uid ∧ l.synced = true ∧ cal.name ≠ l.name)) ∧
  (∀ l ∈ s.lists, l.deleted = false → l.uid ∈ s.calendars.map (·.id)) ∧
  (∀ cal ∈ s.calendars,
      (cal.todos.map (fun td => td.uid.getD "")).Nodup) ∧
  (∀ cal ∈ s.calendars, ∀ t ∈ s.tasks, t.list_uid = cal.id →
      t.synced = true → pullClean cal.id cal.todos t = true) ∧
  (∀ cal ∈ s.calendars, ∀ t ∈ s.tasks, t.list_uid = cal.id →
      t.synced = false →
      t.uid ∈ cal.todos.map (fun td => td.uid.getD "")) ∧
  (∀ cal ∈ s.calendars, ∀ td ∈ cal.todos,
      (td.uid.getD "") ∈
        (s.tasks.filter (fun t => t.list_uid == cal.id)).map (·.uid) ∨
      (td.uid.getD "") ∈ deletedUidsOf s.tasks)

/-- When every calendar id is already a local list uid, __add_local_lists
inserts nothing. -/
theorem addedFor_eq_nil (uids : List String) (cals : List CalDAVCalendar)
    (h : ∀ c ∈ cals, c.id ∈ uids) : addedFor uids cals = [] := by
  rw [addedFor]
  have : cals.filter (fun c => !(uids.contains c.id)) = [] := by
    rw [List.filter_eq_nil_iff]
    intro c hc hcond
    rw [Bool.not_eq_true'] at hcond
    have hmem : uids.contains c.id = true := by simp [h c hc]
    rw [hmem] at hcond
    exact Bool.noConfusion hcond
  rw [this]
  rfl

/-- Under the calendar-coverage condition, __add_local_lists is the
identity on the state and leaves the UI change set empty. -/
theorem addLocalLists_quiet (s : SyncState)
    (h : ∀ c ∈ s.calendars, c.id ∈ s.lists.map (·.uid)) :
    (addLocalLists s {}).1 = s ∧
    (addLocalLists s {}).2 = ({} : UpdateUIArgs) := by
  have hnil := addedFor_eq_nil (s.lists.map (·.uid)) s.calendars h
  rw [addLocalLists_eq s {}, hnil]
  constructor
  · show { s with lists := s.lists ++ [] } = s
    rw [List.append_nil]
  · show { ({} : UpdateUIArgs) with lists_to_add :=
      ({} : UpdateUIArgs).lists_to_add ++ [] } = ({} : UpdateUIArgs)
    rfl

/-- The calendar set after a quiet list phase: every calendar descends
from an original one with the same id and the same to-dos, and id
distinctness is preserved. -/
def calsRel (cs csNew : List CalDAVCalendar) : Prop :=
  (∀ cal ∈ csNew, ∃ cal0 ∈ cs, cal.id = cal0.id ∧ cal.todos = cal0.todos) ∧
  ((cs.map (·.id)).Nodup → (csNew.map (·.id)).Nodup)

/-- calsRel is reflexive. -/
theorem calsRel_refl (cs : List CalDAVCalendar) : calsRel cs cs :=
  ⟨fun cal h => ⟨cal, h, rfl, rfl⟩, fun h => h⟩

/-- calsRel is transitive. -/
theorem calsRel_trans {a b c : List CalDAVCalendar} (h1 : calsRel a b)
    (h2 : calsRel b c) : calsRel a c := by
  refine ⟨fun cal hc => ?_, fun h => h2.2 (h1.2 h)⟩
  obtain ⟨cal1, hc1, hid1, ht1⟩ := h2.1 cal hc
  obtain ⟨cal0, hc0, hid0, ht0⟩ := h1.1 cal1 hc1
  exact ⟨cal0, hc0, hid1.trans hid0, ht1.trans ht0⟩

/-- Renaming a calendar respects calsRel. -/
theorem calsRel_updateCalName (cs : List CalDAVCalendar) (id nm : String) :
    calsRel cs (updateCalName cs id nm) := by
  constructor
  · intro cal hc
    rw [updateCalName, List.mem_map] at hc
    obtain ⟨cal0, hc0, heq⟩ := hc
    refine ⟨cal0, hc0, ?_⟩
    rw [← heq]
    split <;> exact ⟨rfl, rfl⟩
  · intro h
    rw [updateCalName_ids]
    exact h

/-- Deleting a calendar respects calsRel. -/
theorem calsRel_deleteCalById (cs : List CalDAVCalendar) (id : String) :
    calsRel cs (deleteCalById cs id) := by
  constructor
  · intro cal hc
    rw [deleteCalById, List.mem_filter] at hc
    exact ⟨cal, hc.1, rfl, rfl⟩
  · intro h
    refine List.Nodup.sublist ?_ h
    rw [deleteCalById]
    exact List.Sublist.map _ (List.filter_sublist cs)

/-- One rename-loop iteration in a quiet state: the UI change set and the
tasks are untouched and the calendars evolve along calsRel. -/
theorem renameLoopStep_quiet (l : TaskListData)
    (acc : SyncState × UpdateUIArgs) (cal : CalDAVCalendar)
    (hb : ¬(cal.id = l.uid ∧ l.synced = true ∧ cal.name ≠ l.name)) :
    (renameLoopStep l acc cal).2 = acc.2 ∧
    (renameLoopStep l acc cal).1.tasks = acc.1.tasks ∧
    calsRel acc.1.calendars (renameLoopStep l acc cal).1.calendars := by
  rw [renameLoopStep]
  split
  · exact ⟨rfl, rfl, calsRel_updateCalName _ cal.id l.name⟩
  · next hcond2 =>
      split
      · next hcond =>
          exfalso
          simp only [Bool.and_eq_true, beq_iff_eq, bne_iff_ne] at hcond
          exact hb ⟨hcond.1.1, hcond.2, hcond.1.2⟩
      · exact ⟨rfl, rfl, calsRel_refl _⟩

/-- The rename loop in a quiet state: no UI entries, no task changes,
calendars along calsRel. -/
theorem renameFold_quiet (l : TaskListData) (cals : List CalDAVCalendar)
    (acc : SyncState × UpdateUIArgs)
    (hb : ∀ cal ∈ cals, ¬(cal.id = l.uid ∧ l.synced = true ∧
      cal.name ≠ l.name)) :
    (cals.foldl (renameLoopStep l) acc).2 = acc.2 ∧
    (cals.foldl (renameLoopStep l) acc).1.tasks = acc.1.tasks ∧
    calsRel acc.1.calendars (cals.foldl (renameLoopStep l) acc).1.calendars
    := by
  induction cals generalizing acc with
  | nil => exact ⟨rfl, rfl, calsRel_refl _⟩
  | cons c cs ih =>
      rw [List.foldl_cons]
      have hstep := renameLoopStep_quiet l acc c
        (hb c (List.mem_cons_self c cs))
      have hrest := ih (renameLoopStep l acc c)
        (fun c' hc' => hb c' (List.mem_cons_of_mem c hc'))
      exact ⟨hrest.1.trans hstep.1, hrest.2.1.trans hstep.2.1,
        calsRel_trans hstep.2.2 hrest.2.2⟩

/-- A list-loop step in a quiet state: the run cannot fail, the UI change
set and the tasks are untouched, and the calendars evolve along
calsRel. -/
theorem listStep_quiet (mk : String → Bool)
    (cals0 : List CalDAVCalendar) (m : TaskListData) (s : SyncState)
    (ui : UpdateUIArgs) (s' : SyncState) (ui' : UpdateUIArgs)
    (hb : ∀ cal ∈ cals0, ¬(cal.id = m.uid ∧ m.synced = true ∧
      cal.name ≠ m.name))
    (hcd : m.deleted = false → m.uid ∈ cals0.map (·.id))
    (hok : listStep mk cals0 (cals0.map (·.id)) m s ui = .ok (s', ui')) :
    ui' = ui ∧ s'.tasks = s.tasks ∧ calsRel s.calendars s'.calendars := by
  have hfold := renameFold_quiet m cals0 (s, ui) hb
  rw [listStep] at hok
  split at hok
  · next hcond =>
      exfalso
      simp only [Bool.and_eq_true, Bool.not_eq_true'] at hcond
      rcases hcond with ⟨⟨hcont, hsy⟩, hdel⟩
      have hmem := hcd hdel
      have hc2 : ((cals0.map (·.id)).contains m.uid) = true := by simp [hmem]
      rw [hc2] at hcont
      exact Bool.noConfusion hcont
  · split at hok
    · cases hfind : List.find? (fun c => c.id == m.uid) cals0 with
      | some c =>
          simp only [hfind] at hok
          injection hok with hpair
          injection hpair with heqS heqUI
          subst heqS
          subst heqUI
          refine ⟨hfold.1, hfold.2.1, ?_⟩
          show calsRel s.calendars (deleteCalById
            (cals0.foldl (renameLoopStep m) (s, ui)).1.calendars c.id)
          exact calsRel_trans hfold.2.2 (calsRel_deleteCalById _ c.id)
      | none =>
          simp only [hfind] at hok
          injection hok with hpair
          injection hpair with heqS heqUI
          subst heqS
          subst heqUI
          exact ⟨hfold.1, hfold.2.1, hfold.2.2⟩
    · split at hok
      · next hcond =>
          exfalso
          simp only [Bool.and_eq_true, Bool.not_eq_true'] at hcond
          rcases hcond with ⟨⟨hcont, hsy⟩, hdel⟩
          have hmem := hcd hdel
          have hc2 : ((cals0.map (·.id)).contains m.uid) = true := by
            simp [hmem]
          rw [hc2] at hcont
          exact Bool.noConfusion hcont
      · injection hok with hpair
        injection hpair with heqS heqUI
        subst heqS
        subst heqUI
        exact ⟨hfold.1, hfold.2.1, hfold.2.2⟩

/-- The whole List Reconciler in a quiet state: UI change set and tasks
untouched, calendars along calsRel. -/
theorem listPhase_quiet (mk : String → Bool) (s : SyncState)
    (ui : UpdateUIArgs) (s2 : SyncState) (ui2 : UpdateUIArgs)
    (hb : ∀ l ∈ s.lists, ∀ cal ∈ s.calendars,
      ¬(cal.id = l.uid ∧ l.synced = true ∧ cal.name ≠ l.name))
    (hcd : ∀ l ∈ s.lists, l.deleted = false →
      l.uid ∈ s.calendars.map (·.id))
    (hok : listPhase mk s ui = .ok (s2, ui2)) :
    ui2 = ui ∧ s2.tasks = s.tasks ∧ calsRel s.calendars s2.calendars := by
  rw [listPhase] at hok
  suffices h : ∀ (ms : List TaskListData)
      (acc : SyncState × UpdateUIArgs) (out : SyncState × UpdateUIArgs),
      (∀ m ∈ ms, ∀ cal ∈ s.calendars,
        ¬(cal.id = m.uid ∧ m.synced = true ∧ cal.name ≠ m.name)) →
      (∀ m ∈ ms, m.deleted = false → m.uid ∈ s.calendars.map (·.id)) →
      ms.foldlM (fun (a : SyncState × UpdateUIArgs) l =>
        listStep mk s.calendars (s.calendars.map (·.id)) l a.1 a.2) acc =
        .ok out →
      out.2 = acc.2 ∧ out.1.tasks = acc.1.tasks ∧
        calsRel acc.1.calendars out.1.calendars by
    exact h s.lists (s, ui) (s2, ui2) hb hcd hok
  intro ms
  induction ms with
  | nil =>
      intro acc out _ _ hfold
      injection hfold with heq
      subst heq
      exact ⟨rfl, rfl, calsRel_refl _⟩
  | cons m ms ih =>
      intro acc out hbm hcdm hfold
      rw [List.foldlM_cons] at hfold
      cases hstep : listStep mk s.calendars (s.calendars.map (·.id)) m
          acc.1 acc.2 with
      | error e =>
          rw [hstep, exc_bind_error] at hfold
          exact Except.noConfusion hfold
      | ok a =>
          rw [hstep, exc_bind_ok] at hfold
          have h1 := listStep_quiet mk s.calendars m acc.1 acc.2 a.1 a.2
            (hbm m (List.mem_cons_self m ms))
            (hcdm m (List.mem_cons_self m ms)) hstep
          have h2 := ih a out
            (fun m' hm' => hbm m' (List.mem_cons_of_mem m hm'))
            (fun m' hm' => hcdm m' (List.mem_cons_of_mem m hm')) hfold
          exact ⟨h2.1.trans h1.1, h2.2.1.trans h1.2.1,
            calsRel_trans h1.2.2 h2.2.2⟩

/-- Relation between a base task record and its current form during a
quiet task phase: unchanged, or synced-flipped when its list is no longer
pending. -/
def flipRel (keep : String → Prop) (t0 t1 : TaskData) : Prop :=
  t1 = t0 ∨ (t1 = { t0 with synced := true } ∧ ¬ keep t0.list_uid)

/-- Relation between a base calendar and its current form during a quiet
task phase: same id, and fully unchanged while its id is still pending. -/
def calFlipRel (keep : String → Prop) (c0 c1 : CalDAVCalendar) : Prop :=
  c1.id = c0.id ∧ (keep c0.id → c1 = c0)

/-- flipRel is reflexive. -/
theorem flipRel_refl (keep : String → Prop) (t : TaskData) :
    flipRel keep t t := Or.inl rfl

/-- calFlipRel is reflexive. -/
theorem calFlipRel_refl (keep : String → Prop) (c : CalDAVCalendar) :
    calFlipRel keep c c := ⟨rfl, fun _ => rfl⟩

/-- flipRel weakens along a smaller pending set. -/
theorem flipRel_mono {keep keep' : String → Prop}
    (hw : ∀ L, keep' L → keep L) {t0 t1 : TaskData}
    (h : flipRel keep t0 t1) : flipRel keep' t0 t1 := by
  rcases h with h | ⟨h1, h2⟩
  · exact Or.inl h
  · exact Or.inr ⟨h1, fun hk => h2 (hw _ hk)⟩

/-- calFlipRel does not weaken in general, but pairs related under the
larger pending set whose current side is untouched stay related; what we
use is that full Forall2 families weaken when the smaller set still pins
the untouched calendars.  Since calFlipRel keeps a calendar unchanged only
while pending, shrinking the pending set weakens the obligation. -/
theorem calFlipRel_mono {keep keep' : String → Prop}
    (hw : ∀ L, keep' L → keep L) {c0 c1 : CalDAVCalendar}
    (h : calFlipRel keep c0 c1) : calFlipRel keep' c0 c1 :=
  ⟨h.1, fun hk => h.2 (hw _ hk)⟩

/-- Task projections unchanged by a synced flip are equal across
flipRel-related lists. -/
theorem forall2_flip_map_uid {keep : String → Prop}
    {base cur : List TaskData}
    (h : List.Forall₂ (flipRel keep) base cur) :
    cur.map (·.uid) = base.map (·.uid) := by
  induction h with
  | nil => rfl
  | @cons t0 t1 bs cs hrel hrest ih =>
      rcases hrel with heq | ⟨heq, _⟩ <;> subst heq <;>
        rw [List.map_cons, List.map_cons, ih]

/-- The tombstone uid set is invariant under synced flips. -/
theorem forall2_flip_deletedUids {keep : String → Prop}
    {base cur : List TaskData}
    (h : List.Forall₂ (flipRel keep) base cur) :
    deletedUidsOf cur = deletedUidsOf base := by
  induction h with
  | nil => rfl
  | @cons t0 t1 bs cs hrel hrest ih =>
      have ih' : (cs.filter (fun t => t.deleted)).map (·.uid) =
          (bs.filter (fun t => t.deleted)).map (·.uid) := ih
      show ((t1 :: cs).filter (fun t => t.deleted)).map (·.uid) =
          ((t0 :: bs).filter (fun t => t.deleted)).map (·.uid)
      rcases hrel with heq | ⟨heq, _⟩ <;> rw [heq] <;>
        rw [List.filter_cons, List.filter_cons] <;>
        cases hd : t0.deleted
      · rw [if_neg Bool.false_ne_true, if_neg Bool.false_ne_true]
        exact ih'
      · rw [if_pos rfl, if_pos rfl, List.map_cons, List.map_cons, ih']
      · rw [if_neg Bool.false_ne_true, if_neg Bool.false_ne_true]
        exact ih'
      · rw [if_pos rfl, if_pos rfl, List.map_cons, List.map_cons]
        show t0.uid :: _ = t0.uid :: _
        rw [ih']

/-- Tasks of a still-pending list are unchanged across flipRel-related
lists. -/
theorem forall2_flip_filter_list {keep : String → Prop}
    {base cur : List TaskData} (L : String) (hkeep : keep L)
    (h : List.Forall₂ (flipRel keep) base cur) :
    cur.filter (fun t => t.list_uid == L) =
      base.filter (fun t => t.list_uid == L) := by
  induction h with
  | nil => rfl
  | @cons t0 t1 bs cs hrel hrest ih =>
      rcases hrel with heq | ⟨heq, hnk⟩
      · subst heq
        simp only [List.filter_cons]
        rw [ih]
      · subst heq
        have hfalse : (t0.list_uid == L) = false := by
          rw [beq_eq_false_iff_ne]
          intro he
          refine hnk ?_
          rw [he]
          exact hkeep
        simp only [List.filter_cons]
        rw [show (({ t0 with synced := true } : TaskData).list_uid == L) =
          false from hfalse]
        rw [if_neg Bool.false_ne_true, if_neg Bool.false_ne_true, ih]


/-- find? over a cons whose head fails the predicate. -/
theorem find?_cons_neg' {α : Type} (p : α → Bool) (a : α) (l : List α)
    (h : p a = false) : List.find? p (a :: l) = List.find? p l :=
  List.find?_cons_of_neg l (bool_ne_true h)

/-- find? over a cons whose head satisfies the predicate. -/
theorem find?_cons_pos' {α : Type} (p : α → Bool) (a : α) (l : List α)
    (h : p a = true) : List.find? p (a :: l) = some a :=
  List.find?_cons_of_pos l h

/-- Pushing one to-do leaves the decoded lookup of every other uid
unchanged. -/
theorem decodedFind_replaceFirst (cid : String) (todos : List RemoteTodo)
    (uid1 uid2 : String) (t' : TaskData) (hne : uid1 ≠ uid2) :
    ((replaceFirstTodoByUid todos uid1
        (fun td => updateRemoteTodo td t')).map (decodeTodo cid)).find?
      (fun z => z.uid == uid2) =
    ((todos.map (decodeTodo cid)).find? (fun z => z.uid == uid2)) := by
  induction todos with
  | nil => rfl
  | cons td ts ih =>
      rw [replaceFirstTodoByUid]
      by_cases hm : (td.uid.getD "" == uid1) = true
      · rw [if_pos hm]
        have hmeq : td.uid.getD "" = uid1 := beq_iff_eq.mp hm
        have h1 : ((decodeTodo cid (updateRemoteTodo td t')).uid == uid2)
            = false := by
          rw [decodeTodo_uid, updateRemoteTodo_uid, hmeq]
          exact beq_eq_false_iff_ne.mpr hne
        have h2 : ((decodeTodo cid td).uid == uid2) = false := by
          rw [decodeTodo_uid, hmeq]
          exact beq_eq_false_iff_ne.mpr hne
        rw [List.map_cons, List.map_cons,
          find?_cons_neg' (fun (z : TaskData) => z.uid == uid2) _ _ h1,
          find?_cons_neg' (fun (z : TaskData) => z.uid == uid2) _ _ h2]
      · rw [if_neg hm, List.map_cons, List.map_cons]
        cases hp : ((decodeTodo cid td).uid == uid2) with
        | true =>
            rw [find?_cons_pos' (fun (z : TaskData) => z.uid == uid2) _ _ hp,
              find?_cons_pos' (fun (z : TaskData) => z.uid == uid2) _ _ hp]
        | false =>
            rw [find?_cons_neg' (fun (z : TaskData) => z.uid == uid2) _ _ hp,
              find?_cons_neg' (fun (z : TaskData) => z.uid == uid2) _ _ hp, ih]

/-- The current to-dos of the calendar with the given id, as the running
state sees them. -/
def curTodos (x : SyncState) (cid : String) : List RemoteTodo :=
  ((x.calendars.find? (fun c => c.id == cid)).map (·.todos)).getD []

/-- Rewriting the to-dos of calendar `cid` acts on the current to-dos. -/
theorem find?_updateCalTodos (cals : List CalDAVCalendar) (cid : String)
    (f : List RemoteTodo → List RemoteTodo) :
    ((updateCalTodos cals cid f).find? (fun c => c.id == cid)).map
      (·.todos) =
    ((cals.find? (fun c => c.id == cid)).map (fun c => f c.todos)) := by
  induction cals with
  | nil => rfl
  | cons c cs ih =>
      rw [updateCalTodos, List.map_cons]
      by_cases hc : (c.id == cid) = true
      · rw [if_pos hc]
        have hc' : (({ c with todos := f c.todos } :
            CalDAVCalendar).id == cid) = true := hc
        rw [find?_cons_pos' (fun (c : CalDAVCalendar) => c.id == cid) _ _ hc',
          find?_cons_pos' (fun (c : CalDAVCalendar) => c.id == cid) _ _ hc]
        rfl
      · rw [if_neg hc]
        have hc0 : ((c : CalDAVCalendar).id == cid) = false :=
          Bool.not_eq_true _ ▸ Bool.of_not_eq_true hc
        rw [find?_cons_neg' (fun (c : CalDAVCalendar) => c.id == cid) _ _ hc0,
          find?_cons_neg' (fun (c : CalDAVCalendar) => c.id == cid) _ _ hc0]
        rw [updateCalTodos] at ih
        exact ih

/-- Calendar lookup across a calFlipRel-related family: both sides find
nothing, or they find related calendars. -/
theorem calFind_forall2 {keep : String → Prop}
    {b y : List CalDAVCalendar}
    (h : List.Forall₂ (calFlipRel keep) b y) (cid : String) :
    (b.find? (fun c => c.id == cid) = none ∧
      y.find? (fun c => c.id == cid) = none) ∨
    (∃ c0 c1, b.find? (fun c => c.id == cid) = some c0 ∧
      y.find? (fun c => c.id == cid) = some c1 ∧ calFlipRel keep c0 c1) := by
  induction h with
  | nil => exact Or.inl ⟨rfl, rfl⟩
  | @cons c0 c1 bs ys hrel hrest ih =>
      by_cases hc : (c0.id == cid) = true
      · have hc1 : (c1.id == cid) = true := by
          rw [hrel.1]
          exact hc
        exact Or.inr ⟨c0, c1, find?_cons_pos' (fun (c : CalDAVCalendar) => c.id == cid) _ _ hc,
          find?_cons_pos' (fun (c : CalDAVCalendar) => c.id == cid) _ _ hc1, hrel⟩
      · have hc0 : (c0.id == cid) = false := Bool.of_not_eq_true hc
        have hc1 : (c1.id == cid) = false := by
          rw [hrel.1]
          exact hc0
        rw [find?_cons_neg' (fun (c : CalDAVCalendar) => c.id == cid) _ _ hc0,
          find?_cons_neg' (fun (c : CalDAVCalendar) => c.id == cid) _ _ hc1]
        exact ih

/-- Marking one task of an already-visited list synced respects the flip
relation. -/
theorem forall2_flip_replaceTask {keep : String → Prop}
    {base cur : List TaskData}
    (h : List.Forall₂ (flipRel keep) base cur) (cid uid : String)
    (hk : ¬ keep cid) :
    List.Forall₂ (flipRel keep) base
      (replaceTask cur cid uid (fun old => { old with synced := true })) := by
  induction h with
  | nil => exact List.Forall₂.nil
  | @cons t0 t1 bs cs hrel hrest ih =>
      rw [replaceTask, List.map_cons]
      refine List.Forall₂.cons ?_ ih
      by_cases hcond : (t1.list_uid == cid && t1.uid == uid) = true
      · rw [if_pos hcond]
        rw [Bool.and_eq_true, beq_iff_eq, beq_iff_eq] at hcond
        rcases hrel with heq | ⟨heq, hnk⟩
        · subst heq
          refine Or.inr ⟨rfl, ?_⟩
          rw [hcond.1]
          exact hk
        · subst heq
          exact Or.inr ⟨rfl, hnk⟩
      · rw [if_neg hcond]
        exact hrel

/-- Rewriting the to-dos of an already-visited calendar respects the
calendar flip relation. -/
theorem forall2_cal_updateCalTodos {keep : String → Prop}
    {b y : List CalDAVCalendar}
    (h : List.Forall₂ (calFlipRel keep) b y) (cid : String)
    (f : List RemoteTodo → List RemoteTodo) (hk : ¬ keep cid) :
    List.Forall₂ (calFlipRel keep) b (updateCalTodos y cid f) := by
  induction h with
  | nil => exact List.Forall₂.nil
  | @cons c0 c1 bs ys hrel hrest ih =>
      rw [updateCalTodos, List.map_cons]
      refine List.Forall₂.cons ?_ ih
      by_cases hcond : (c1.id == cid) = true
      · rw [if_pos hcond]
        refine ⟨hrel.1, fun hkeep => ?_⟩
        exfalso
        refine hk ?_
        rw [← beq_iff_eq.mp hcond, hrel.1]
        exact hkeep
      · rw [if_neg hcond]
        exact hrel

/-- Unfolding a successful pull-clean check. -/
theorem pullClean_elim (cid : String) (todos : List RemoteTodo)
    (t : TaskData) (h : pullClean cid todos t = true) :
    ∃ rt, (todos.map (decodeTodo cid)).find? (fun z => z.uid == t.uid) =
      some rt ∧ diffFields rt t = [] := by
  rw [pullClean] at h
  cases hf : (todos.map (decodeTodo cid)).find? (fun z => z.uid == t.uid)
      with
  | none =>
      simp only [hf] at h
      exact Bool.noConfusion h
  | some rt =>
      simp only [hf] at h
      exact ⟨rt, rfl, by simpa using h⟩

/-- Decoded uids are the raw to-do uid texts. -/
theorem decodedUids_eq (cid : String) (todos : List RemoteTodo) :
    (todos.map (decodeTodo cid)).map (·.uid) =
      todos.map (fun td => td.uid.getD "") := by
  rw [List.map_map]
  exact List.map_congr_left (fun td _ => rfl)

/-- A uid present among decoded uids has a decoded find? result. -/
theorem find_uid_isSome (cid : String) (todos : List RemoteTodo)
    (uid : String) (h : uid ∈ (todos.map (decodeTodo cid)).map (·.uid)) :
    ∃ rt, (todos.map (decodeTodo cid)).find? (fun z => z.uid == uid) =
      some rt := by
  obtain ⟨rt, hmem, heq⟩ := List.mem_map.mp h
  have hsome : ((todos.map (decodeTodo cid)).find?
      (fun z => z.uid == uid)).isSome = true :=
    List.find?_isSome.mpr ⟨rt, hmem, by rw [heq]; exact beq_self_eq_true uid⟩
  cases hf : (todos.map (decodeTodo cid)).find? (fun z => z.uid == uid) with
  | none => rw [hf] at hsome; exact Bool.noConfusion hsome
  | some rt' => exact ⟨rt', rfl⟩

/-- A clean pull is a no-op: the branch refetches, compares, finds no
difference, and leaves state and UI untouched. -/
theorem applyTaskAction_pull_clean (cid : String) (remoteIds : List String)
    (t : TaskData) (acc : SyncState × UpdateUIArgs)
    (hsy : t.synced = true) (hin : remoteIds.contains t.uid = true)
    (calY : CalDAVCalendar)
    (hfind : acc.1.calendars.find? (fun c => c.id == cid) = some calY)
    (rt : TaskData)
    (hrt : (calY.todos.map (decodeTodo cid)).find?
      (fun z => z.uid == t.uid) = some rt)
    (hdiff : diffFields rt t = []) :
    applyTaskAction cid remoteIds t acc = acc := by
  have hcl : classifyTask (remoteIds.contains t.uid) t.synced t.deleted =
      TaskAction.updateLocal := by
    rw [hin, hsy]
    rfl
  rw [applyTaskAction]
  simp only [hcl, hfind, hrt, hdiff]
  simp

/-- A push rewrites the first matching to-do and marks the task synced,
leaving the UI change set untouched. -/
theorem applyTaskAction_push_eq (cid : String) (remoteIds : List String)
    (t : TaskData) (acc : SyncState × UpdateUIArgs)
    (hsy : t.synced = false) (hin : remoteIds.contains t.uid = true) :
    applyTaskAction cid remoteIds t acc =
      ({ acc.1 with
          calendars := updateCalTodos acc.1.calendars cid
            (fun ts => replaceFirstTodoByUid ts t.uid
              (fun todo => updateRemoteTodo todo t))
          tasks := replaceTask acc.1.tasks cid t.uid
            (fun old => { old with synced := true }) }, acc.2) := by
  have hcl : classifyTask (remoteIds.contains t.uid) t.synced t.deleted =
      TaskAction.updateRemote := by
    rw [hin, hsy]
    rfl
  rw [applyTaskAction]
  simp only [hcl]

/-- The current to-dos of calendar `cid` after a push rewrote them. -/
theorem curTodos_push (y : SyncState) (cid : String) (calY : CalDAVCalendar)
    (hyf : y.calendars.find? (fun c => c.id == cid) = some calY)
    (uid1 : String) (t' : TaskData) (tk : List TaskData) :
    curTodos { y with
      calendars := updateCalTodos y.calendars cid
        (fun ts2 => replaceFirstTodoByUid ts2 uid1
          (fun todo => updateRemoteTodo todo t'))
      tasks := tk } cid =
    replaceFirstTodoByUid calY.todos uid1
      (fun todo => updateRemoteTodo todo t') := by
  rw [curTodos]
  show (((updateCalTodos y.calendars cid
      (fun ts2 => replaceFirstTodoByUid ts2 uid1
        (fun todo => updateRemoteTodo todo t'))).find?
      (fun c => c.id == cid)).map (·.todos)).getD [] = _
  rw [find?_updateCalTodos, hyf]
  rfl

/-- The local-task loop of one quiet calendar step: with every synced task
pull-clean and every unsynced task already present remotely, the loop only
flips synced flags and rewrites this calendar's to-dos, and the UI change
set comes out exactly as it went in. -/
theorem taskInner_quiet (sB : SyncState) (cid : String)
    (keep' : String → Prop) (hkc : ¬ keep' cid) (cal0 : CalDAVCalendar)
    (hQg : ∀ t ∈ sB.tasks, t.list_uid = cid → t.synced = true →
      pullClean cid cal0.todos t = true) :
    ∀ (ts : List TaskData), ((ts.map (·.uid)).Nodup) →
    (∀ t ∈ ts, t ∈ sB.tasks ∧ t.list_uid = cid ∧ (t.synced = false →
      t.uid ∈ cal0.todos.map (fun td => td.uid.getD ""))) →
    ∀ (y : SyncState) (ui : UpdateUIArgs),
    List.Forall₂ (flipRel keep') sB.tasks y.tasks →
    List.Forall₂ (calFlipRel keep') sB.calendars y.calendars →
    (∀ uid2 ∈ ts.map (·.uid),
      ((curTodos y cid).map (decodeTodo cid)).find?
        (fun z => z.uid == uid2) =
      (cal0.todos.map (decodeTodo cid)).find? (fun z => z.uid == uid2)) →
    (ts.foldl (fun acc t => applyTaskAction cid
        ((cal0.todos.map (decodeTodo cid)).map (·.uid)) t acc) (y, ui)).2 =
      ui ∧
    List.Forall₂ (flipRel keep') sB.tasks
      (ts.foldl (fun acc t => applyTaskAction cid
        ((cal0.todos.map (decodeTodo cid)).map (·.uid)) t acc)
        (y, ui)).1.tasks ∧
    List.Forall₂ (calFlipRel keep') sB.calendars
      (ts.foldl (fun acc t => applyTaskAction cid
        ((cal0.todos.map (decodeTodo cid)).map (·.uid)) t acc)
        (y, ui)).1.calendars := by
  intro ts
  induction ts with
  | nil =>
      intro _ _ y ui h2 h3 _
      exact ⟨rfl, h2, h3⟩
  | cons t ts ih =>
      intro hnd hts y ui h2 h3 hI4
      rw [List.map_cons] at hnd
      have hndc := List.nodup_cons.mp hnd
      obtain ⟨htmem, htl, htsy⟩ := hts t (List.mem_cons_self t ts)
      have htstail : ∀ t' ∈ ts, t' ∈ sB.tasks ∧ t'.list_uid = cid ∧
          (t'.synced = false →
            t'.uid ∈ cal0.todos.map (fun td => td.uid.getD "")) :=
        fun t' ht' => hts t' (List.mem_cons_of_mem t ht')
      have hI4t := hI4 t.uid
        (by rw [List.map_cons]; exact List.mem_cons_self _ _)
      have hI4tail : ∀ uid2 ∈ ts.map (·.uid),
          ((curTodos y cid).map (decodeTodo cid)).find?
            (fun z => z.uid == uid2) =
          (cal0.todos.map (decodeTodo cid)).find?
            (fun z => z.uid == uid2) :=
        fun uid2 hu2 => hI4 uid2
          (by rw [List.map_cons]; exact List.mem_cons_of_mem _ hu2)
      simp only [List.foldl_cons]
      cases hsy : t.synced with
      | true =>
          have hclean := hQg t htmem htl hsy
          obtain ⟨rt0, hfind0, hdiff0⟩ := pullClean_elim cid cal0.todos t
            hclean
          have hp := List.find?_some hfind0
          have hmm : t.uid ∈
              (cal0.todos.map (decodeTodo cid)).map (·.uid) :=
            List.mem_map.mpr ⟨rt0, List.mem_of_find?_eq_some hfind0,
              beq_iff_eq.mp hp⟩
          have hcont : ((cal0.todos.map (decodeTodo cid)).map
              (·.uid)).contains t.uid = true := by simpa using hmm
          rw [hfind0] at hI4t
          cases hyf : y.calendars.find? (fun c => c.id == cid) with
          | none =>
              exfalso
              rw [curTodos, hyf] at hI4t
              simp at hI4t
          | some calY =>
              have hcur : curTodos y cid = calY.todos := by
                rw [curTodos, hyf]
                rfl
              rw [hcur] at hI4t
              have hstep := applyTaskAction_pull_clean cid
                ((cal0.todos.map (decodeTodo cid)).map (·.uid)) t (y, ui)
                hsy hcont calY hyf rt0 hI4t hdiff0
              rw [hstep]
              exact ih hndc.2 htstail y ui h2 h3 hI4tail
      | false =>
          have hmm : t.uid ∈
              (cal0.todos.map (decodeTodo cid)).map (·.uid) := by
            rw [decodedUids_eq]
            exact htsy hsy
          have hcont : ((cal0.todos.map (decodeTodo cid)).map
              (·.uid)).contains t.uid = true := by simpa using hmm
          obtain ⟨rtx, hfindx⟩ := find_uid_isSome cid cal0.todos t.uid hmm
          rw [hfindx] at hI4t
          cases hyf : y.calendars.find? (fun c => c.id == cid) with
          | none =>
              exfalso
              rw [curTodos, hyf] at hI4t
              simp at hI4t
          | some calY =>
              have hcur : curTodos y cid = calY.todos := by
                rw [curTodos, hyf]
                rfl
              have hstep := applyTaskAction_push_eq cid
                ((cal0.todos.map (decodeTodo cid)).map (·.uid)) t (y, ui)
                hsy hcont
              rw [hstep]
              refine ih hndc.2 htstail _ _ ?_ ?_ ?_
              · show List.Forall₂ (flipRel keep') sB.tasks
                  (replaceTask y.tasks cid t.uid
                    (fun old => { old with synced := true }))
                exact forall2_flip_replaceTask h2 cid t.uid hkc
              · show List.Forall₂ (calFlipRel keep') sB.calendars
                  (updateCalTodos y.calendars cid
                    (fun ts2 => replaceFirstTodoByUid ts2 t.uid
                      (fun todo => updateRemoteTodo todo t)))
                exact forall2_cal_updateCalTodos h3 cid _ hkc
              · intro uid2 hu2
                have hne : t.uid ≠ uid2 := by
                  intro he
                  rw [he] at hndc
                  exact hndc.1 hu2
                show ((curTodos { y with
                    calendars := updateCalTodos y.calendars cid
                      (fun ts2 => replaceFirstTodoByUid ts2 t.uid
                        (fun todo => updateRemoteTodo todo t))
                    tasks := replaceTask y.tasks cid t.uid
                      (fun old => { old with synced := true }) } cid).map
                    (decodeTodo cid)).find? (fun z => z.uid == uid2) =
                  (cal0.todos.map (decodeTodo cid)).find?
                    (fun z => z.uid == uid2)
                rw [curTodos_push y cid calY hyf t.uid t
                  (replaceTask y.tasks cid t.uid
                    (fun old => { old with synced := true }))]
                rw [decodedFind_replaceFirst cid calY.todos t.uid uid2 t hne]
                have := hI4tail uid2 hu2
                rw [hcur] at this
                exact this

/-- One quiet calendar step of the Task Reconciler: the UI change set is
returned unchanged, and the state evolves along the flip relations with
this calendar removed from the pending set. -/
theorem taskStep_quiet (sB : SyncState) (cid : String)
    (keep keep' : String → Prop) (hkcid : keep cid) (hkc : ¬ keep' cid)
    (hw : ∀ L, keep' L → keep L)
    (hQb : (sB.tasks.map (·.uid)).Nodup)
    (hQg : ∀ cal ∈ sB.calendars, ∀ t ∈ sB.tasks, t.list_uid = cal.id →
      t.synced = true → pullClean cal.id cal.todos t = true)
    (hQh : ∀ cal ∈ sB.calendars, ∀ t ∈ sB.tasks, t.list_uid = cal.id →
      t.synced = false → t.uid ∈ cal.todos.map (fun td => td.uid.getD ""))
    (hQi : ∀ cal ∈ sB.calendars, ∀ td ∈ cal.todos,
      (td.uid.getD "") ∈
        (sB.tasks.filter (fun t => t.list_uid == cal.id)).map (·.uid) ∨
      (td.uid.getD "") ∈ deletedUidsOf sB.tasks)
    (y : SyncState) (ui : UpdateUIArgs)
    (h2 : List.Forall₂ (flipRel keep) sB.tasks y.tasks)
    (h3 : List.Forall₂ (calFlipRel keep) sB.calendars y.calendars) :
    (taskStep y ui cid).2 = ui ∧
    List.Forall₂ (flipRel keep') sB.tasks (taskStep y ui cid).1.tasks ∧
    List.Forall₂ (calFlipRel keep') sB.calendars
      (taskStep y ui cid).1.calendars := by
  have h2' : List.Forall₂ (flipRel keep') sB.tasks y.tasks :=
    List.Forall₂.imp (fun _ _ h => flipRel_mono hw h) h2
  have h3' : List.Forall₂ (calFlipRel keep') sB.calendars y.calendars :=
    List.Forall₂.imp (fun _ _ h => calFlipRel_mono hw h) h3
  rw [taskStep]
  rcases calFind_forall2 h3 cid with ⟨hbnone, hynone⟩ |
    ⟨c0, c1, hbf, hyf, hrel⟩
  · rw [hynone]
    exact ⟨rfl, h2', h3'⟩
  · have hpred := List.find?_some hbf
    have hc0id : c0.id = cid := beq_iff_eq.mp hpred
    have hc1eq : c1 = c0 := hrel.2 (by rw [hc0id]; exact hkcid)
    have hc0mem : c0 ∈ sB.calendars := List.mem_of_find?_eq_some hbf
    rw [hc1eq] at hyf
    simp only [hyf]
    have hfilt : y.tasks.filter (fun t => t.list_uid == cid) =
        sB.tasks.filter (fun t => t.list_uid == cid) :=
      forall2_flip_filter_list cid hkcid h2
    have hdel : deletedUidsOf y.tasks = deletedUidsOf sB.tasks :=
      forall2_flip_deletedUids h2
    rw [hfilt, hdel]
    have hpc : pullCreateList
        ((sB.tasks.filter (fun t => t.list_uid == cid)).map (·.uid))
        (deletedUidsOf sB.tasks) (c0.todos.map (decodeTodo cid)) = [] := by
      rw [pullCreateList, List.filter_eq_nil_iff]
      intro rt hrt hcond
      obtain ⟨td, htd, hrteq⟩ := List.mem_map.mp hrt
      have huid : rt.uid = td.uid.getD "" := by
        rw [← hrteq]
        rfl
      rw [Bool.and_eq_true, Bool.not_eq_true', Bool.not_eq_true'] at hcond
      rcases hQi c0 hc0mem td htd with hloc | hdead
      · rw [hc0id] at hloc
        have hmem : ((sB.tasks.filter
            (fun t => t.list_uid == cid)).map (·.uid)).contains rt.uid =
            true := by
          rw [huid]
          simpa using hloc
        rw [hmem] at hcond
        exact Bool.noConfusion hcond.1
      · have hmem : (deletedUidsOf sB.tasks).contains rt.uid = true := by
          rw [huid]
          simpa using hdead
        rw [hmem] at hcond
        exact Bool.noConfusion hcond.2
    rw [hpc, List.foldl_nil]
    have hnodup : (((sB.tasks.filter
        (fun t => t.list_uid == cid)).map (·.uid)).Nodup) :=
      List.Nodup.sublist
        (List.Sublist.map (fun t => t.uid) (List.filter_sublist sB.tasks))
        hQb
    have hts : ∀ t ∈ sB.tasks.filter (fun t => t.list_uid == cid),
        t ∈ sB.tasks ∧ t.list_uid = cid ∧ (t.synced = false →
          t.uid ∈ c0.todos.map (fun td => td.uid.getD "")) := by
      intro t ht
      have hmem := List.mem_filter.mp ht
      have hl : t.list_uid = cid := beq_iff_eq.mp hmem.2
      exact ⟨hmem.1, hl, fun hs =>
        hQh c0 hc0mem t hmem.1 (hl.trans hc0id.symm) hs⟩
    have hQg0 : ∀ t ∈ sB.tasks, t.list_uid = cid → t.synced = true →
        pullClean cid c0.todos t = true := by
      intro t ht hl hs
      have := hQg c0 hc0mem t ht (hl.trans hc0id.symm) hs
      rw [hc0id] at this
      exact this
    have hcury : curTodos y cid = c0.todos := by
      rw [curTodos, hyf]
      rfl
    have hI40 : ∀ uid2 ∈ ((sB.tasks.filter
        (fun t => t.list_uid == cid)).map (·.uid)),
        ((curTodos y cid).map (decodeTodo cid)).find?
          (fun z => z.uid == uid2) =
        (c0.todos.map (decodeTodo cid)).find? (fun z => z.uid == uid2) := by
      intro uid2 _
      rw [hcury]
    exact taskInner_quiet sB cid keep' hkc c0 hQg0
      (sB.tasks.filter (fun t => t.list_uid == cid)) hnodup hts y ui
      h2' h3' hI40

/-- Forall₂ along a reflexive relation relates a list to itself. -/
theorem forall2_self {α : Type} (r : α → α → Prop) (hr : ∀ a, r a a) :
    ∀ (l : List α), List.Forall₂ r l l := by
  intro l
  induction l with
  | nil => exact List.Forall₂.nil
  | cons a l ih => exact List.Forall₂.cons (hr a) ih

/-- The whole quiet Task Reconciler fold: iterating the calendar steps over
a duplicate-free id list returns the UI change set unchanged. -/
theorem taskPhaseFold_quiet (sB : SyncState)
    (hQb : (sB.tasks.map (·.uid)).Nodup)
    (hQg : ∀ cal ∈ sB.calendars, ∀ t ∈ sB.tasks, t.list_uid = cal.id →
      t.synced = true → pullClean cal.id cal.todos t = true)
    (hQh : ∀ cal ∈ sB.calendars, ∀ t ∈ sB.tasks, t.list_uid = cal.id →
      t.synced = false → t.uid ∈ cal.todos.map (fun td => td.uid.getD ""))
    (hQi : ∀ cal ∈ sB.calendars, ∀ td ∈ cal.todos,
      (td.uid.getD "") ∈
        (sB.tasks.filter (fun t => t.list_uid == cal.id)).map (·.uid) ∨
      (td.uid.getD "") ∈ deletedUidsOf sB.tasks) :
    ∀ (cids : List String), cids.Nodup →
    ∀ (y : SyncState) (ui : UpdateUIArgs),
    List.Forall₂ (flipRel (fun L => L ∈ cids)) sB.tasks y.tasks →
    List.Forall₂ (calFlipRel (fun L => L ∈ cids)) sB.calendars
      y.calendars →
    (cids.foldl (fun acc cid => taskStep acc.1 acc.2 cid) (y, ui)).2 =
      ui := by
  intro cids
  induction cids with
  | nil =>
      intro _ y ui _ _
      rfl
  | cons cid rest ih =>
      intro hnd y ui h2 h3
      simp only [List.foldl_cons]
      have hndc := List.nodup_cons.mp hnd
      have hstep := taskStep_quiet sB cid (fun L => L ∈ cid :: rest)
        (fun L => L ∈ rest) (List.mem_cons_self cid rest) hndc.1
        (fun L hL => List.mem_cons_of_mem cid hL) hQb hQg hQh hQi y ui
        h2 h3
      have hrec := ih hndc.2 (taskStep y ui cid).1 (taskStep y ui cid).2
        hstep.2.1 hstep.2.2
      exact hrec.trans hstep.1

/-- C7 (amended): the spec's unconditional idempotence fails, but it holds
from a converged state: whenever a first sync() run completes and its
resulting state is quiet — every remote calendar is matched by a local
list, matched synced lists agree on names, undeleted lists exist remotely,
calendar ids, task uids and per-calendar to-do uids are duplicate-free,
every synced task decodes cleanly from its calendar, every unsynced task
already exists in its calendar, and every remote to-do is present locally
or tombstoned — then the next sync() run produces an empty UiChangeSet. -/
theorem C7_amended_idempotence (mk : String → Bool) (s s1 s2 : SyncState)
    (ui1 ui2 : UpdateUIArgs) (h1 : syncRun mk s = .ok (s1, ui1))
    (hq : Quiet s1) (h2 : syncRun mk s1 = .ok (s2, ui2)) :
    ui2 = ({} : UpdateUIArgs) := by
  rw [Quiet] at hq
  obtain ⟨ha, hb, hc, hd, he, hf, hg, hh, hi⟩ := hq
  rw [syncRun] at h2
  obtain ⟨hA1, hA2⟩ := addLocalLists_quiet s1 hc
  rw [hA1, hA2] at h2
  cases hlp : listPhase mk s1 {} with
  | error e =>
      rw [hlp] at h2
      exact Except.noConfusion h2
  | ok p =>
      obtain ⟨pA, pB⟩ := p
      rw [hlp] at h2
      have h3 : (Except.ok (taskPhase pA pB) :
          Except String (SyncState × UpdateUIArgs)) = .ok (s2, ui2) := h2
      injection h3 with h4
      obtain ⟨hui, htasks, hcals⟩ := listPhase_quiet mk s1 {} pA pB hd he
        hlp
      have hQb' : (pA.tasks.map (·.uid)).Nodup := by
        rw [htasks]
        exact hb
      have hQg' : ∀ cal ∈ pA.calendars, ∀ t ∈ pA.tasks,
          t.list_uid = cal.id → t.synced = true →
          pullClean cal.id cal.todos t = true := by
        intro cal hcal t ht hl hs
        obtain ⟨cal1, hc1, hid, htd⟩ := hcals.1 cal hcal
        rw [htasks] at ht
        rw [hid, htd]
        exact hg cal1 hc1 t ht (hl.trans hid) hs
      have hQh' : ∀ cal ∈ pA.calendars, ∀ t ∈ pA.tasks,
          t.list_uid = cal.id → t.synced = false →
          t.uid ∈ cal.todos.map (fun td => td.uid.getD "") := by
        intro cal hcal t ht hl hs
        obtain ⟨cal1, hc1, hid, htd⟩ := hcals.1 cal hcal
        rw [htasks] at ht
        rw [htd]
        exact hh cal1 hc1 t ht (hl.trans hid) hs
      have hQi' : ∀ cal ∈ pA.calendars, ∀ td ∈ cal.todos,
          (td.uid.getD "") ∈
            (pA.tasks.filter (fun t => t.list_uid == cal.id)).map (·.uid) ∨
          (td.uid.getD "") ∈ deletedUidsOf pA.tasks := by
        intro cal hcal td htdm
        obtain ⟨cal1, hc1, hid, htd⟩ := hcals.1 cal hcal
        rw [htasks, hid]
        exact hi cal1 hc1 td (htd ▸ htdm)
      have hndc : (pA.calendars.map (·.id)).Nodup := hcals.2 ha
      have hfin := taskPhaseFold_quiet pA hQb' hQg' hQh' hQi'
        (pA.calendars.map (·.id)) hndc pA pB
        (forall2_self _ (flipRel_refl _) _)
        (forall2_self _ (calFlipRel_refl _) _)
      have hui2 : (taskPhase pA pB).2 = ui2 := congrArg Prod.snd h4
      rw [← hui2, taskPhase, hfin]
      exact hui

/-- A converged witness universe: one list, its calendar, one synced task
whose remote to-do decodes to exactly the stored record. -/
def c7wtodo : RemoteTodo := { uid := some "T" }

/-- The stored form of the witness task: its decoded remote copy, marked
synced. -/
def c7wtask : TaskData := { decodeTodo "L" c7wtodo with synced := true }

/-- The quiet witness state. -/
def c7wq : SyncState :=
  { lists := [{ uid := "L", name := "N", synced := true, deleted := false }]
    tasks := [c7wtask]
    calendars := [{ id := "L", name := "N", todos := [c7wtodo] }] }

theorem C7_amended_witness :
    syncRun (fun _ => true) c7wq = .ok (c7wq, ({} : UpdateUIArgs)) ∧
    Quiet c7wq ∧ ({} : UpdateUIArgs) = ({} : UpdateUIArgs) := by
  have hq : Quiet c7wq := by
    rw [Quiet]
    exact ⟨by decide, by decide, by decide, by decide, by decide, by decide,
      by decide, by decide, by decide⟩
  exact ⟨rfl, hq, C7_amended_idempotence (fun _ => true) c7wq c7wq c7wq
    {} {} rfl hq rfl⟩
